import Mathlib

set_option maxHeartbeats 1000000
set_option linter.unusedVariables false

/-
Shallow embedding of `holoviews/plotting/plotly/element.py`.

`ElementPlot.generate_plot`, `ElementPlot.graph_options`,
`ElementPlot.apply_transforms` (source: `_apply_transforms`),
`ElementPlot.init_graph`, `ElementPlot.init_layout`,
`ElementPlot.get_ticks` (source: `_get_ticks`),
`ColorbarPlot.get_color_opts` and `OverlayPlot.generate_plot` are
translated from the source file.  Collaborators that are part of the
repository but not part of the source file under review (the `dim`
transform class, `dim_range_key`, `get_colorscale`, `merge_figure`, the
options / range lookup machinery) are modelled from the spec and carry a
doc comment saying so.

Python dicts are association lists with insertion-order semantics
(update-in-place keeps the position of an existing key, a fresh key is
appended); numpy arrays are lists of data values; in-place mutation of a
dict that is shared between two records is made explicit by returning the
updated mapping alongside the ordinary result.
-/

/-- Scalar data values carried by an element's columns: a rational number
(standing for a Python/numpy float or int), IEEE NaN, or a string. -/
inductive DVal where
  | num (q : ℚ)
  | nan
  | str (s : String)
deriving DecidableEq, Repr

/-- Numeric bound values used for colormap limits: a rational, numpy NaN,
or Python `None`. -/
inductive NumVal where
  | num (q : ℚ)
  | nan
  | none
deriving DecidableEq, Repr

/-- A deferred operation of a dimension transform (spec 3: "arithmetic,
categorization, binning"); modelled from the spec as elementwise
arithmetic on the backing dimension. -/
inductive Op where
  | plusC (q : ℚ)
  | timesC (q : ℚ)
deriving DecidableEq, Repr

/-- A dimension transform (`holoviews.util.transform.dim`), modelled from
the spec: a backing dimension name plus a chain of deferred operations.
(The `dim` class itself is repository code not contained in the source
file under review.) -/
structure DimT where
  dimension : String
  ops : List Op
deriving DecidableEq, Repr

/-- A `holoviews.core.Dimension`: a named semantic axis with a display
label.  Modelled from the spec (the Dimension class is outside the source
file under review). -/
structure Dimension where
  name : String
  label : String
deriving DecidableEq, Repr

/-- Python values flowing through style dictionaries, traces and layouts:
strings, numbers, NaN, None, booleans, numpy arrays of data values,
nested dicts, `dim` transform objects and the opaque colorscale object
returned by `get_colorscale`. -/
inductive PyVal where
  | pstr (s : String)
  | pnum (q : ℚ)
  | pnan
  | pnone
  | pbool (b : Bool)
  | parr (vs : List DVal)
  | pdict (m : List (String × PyVal))
  | pdim (t : DimT)
  | pcscale (cmap : PyVal) (levels : Option PyVal) (cmin cmax : NumVal)

/-- Association-list representation of a Python dict. -/
abbrev PyDict := List (String × PyVal)

/-- The argument of `get_color_opts` (source line 341): a `dim` transform,
a bare `Dimension`, or Python `None`. -/
inductive Eldim where
  | dt (t : DimT)
  | dd (d : Dimension)
  | noneE
deriving DecidableEq, Repr

/-- Dict lookup (first occurrence of the key, as in a Python dict whose
keys are unique). -/
def lookupA : PyDict → String → Option PyVal
  | [], _ => Option.none
  | (k', v) :: rest, k => if k' = k then some v else lookupA rest k

/-- Dict assignment `m[k] = v`: replaces the first entry with key `k`
keeping its position, appends when absent (Python insertion order). -/
def setA : PyDict → String → PyVal → PyDict
  | [], k, v => [(k, v)]
  | (k', v') :: rest, k, v =>
      if k' = k then (k, v) :: rest else (k', v') :: setA rest k v

/-- Dict `m.pop(k, default)` effect on the mapping: removes the entries
with key `k`. -/
def eraseA (m : PyDict) (k : String) : PyDict :=
  m.filter (fun p => p.1 ≠ k)

/-- Dict `m.update(other)`: assigns every entry of `other` in order. -/
def updateA (m other : PyDict) : PyDict :=
  other.foldl (fun acc kv => setA acc kv.1 kv.2) m

@[simp] theorem lookupA_nil (k : String) : lookupA [] k = Option.none := rfl

theorem lookupA_cons (k' : String) (v : PyVal) (rest : PyDict) (k : String) :
    lookupA ((k', v) :: rest) k = if k' = k then some v else lookupA rest k := rfl

@[simp] theorem lookupA_setA_self (m : PyDict) (k : String) (v : PyVal) :
    lookupA (setA m k v) k = some v := by
  induction m with
  | nil => simp [setA, lookupA]
  | cons hd tl ih =>
      by_cases h : hd.1 = k
      · simp [setA, h, lookupA]
      · simp [setA, h, lookupA, ih]

theorem lookupA_setA_ne (m : PyDict) (k k' : String) (v : PyVal) (h : k' ≠ k) :
    lookupA (setA m k v) k' = lookupA m k' := by
  induction m with
  | nil =>
      have : ¬ (k = k') := fun hh => h hh.symm
      simp [setA, lookupA, this]
  | cons hd tl ih =>
      by_cases hk : hd.1 = k
      · subst hk
        have : ¬ (hd.1 = k') := fun hh => h hh.symm
        simp only [setA, if_pos rfl, lookupA]
        simp [this]
      · simp only [setA, if_neg hk, lookupA]
        by_cases hk' : hd.1 = k'
        · simp [hk']
        · simp [hk', ih]

theorem eraseA_cons_self (hd : String × PyVal) (tl : PyDict) (k : String)
    (hk : hd.1 = k) : eraseA (hd :: tl) k = eraseA tl k := by
  simp [eraseA, List.filter_cons, hk]

theorem eraseA_cons_ne (hd : String × PyVal) (tl : PyDict) (k : String)
    (hk : ¬ hd.1 = k) : eraseA (hd :: tl) k = hd :: eraseA tl k := by
  simp [eraseA, List.filter_cons, hk]

theorem lookupA_eraseA_ne (m : PyDict) (k k' : String) (h : k' ≠ k) :
    lookupA (eraseA m k) k' = lookupA m k' := by
  induction m with
  | nil => simp [eraseA]
  | cons hd tl ih =>
      by_cases hk : hd.1 = k
      · have hne : ¬ (hd.1 = k') := fun hh => h (hk ▸ hh ▸ rfl)
        rw [eraseA_cons_self hd tl k hk, ih, lookupA, if_neg hne]
      · rw [eraseA_cons_ne hd tl k hk, lookupA, lookupA, ih]

@[simp] theorem lookupA_eraseA_self (m : PyDict) (k : String) :
    lookupA (eraseA m k) k = Option.none := by
  induction m with
  | nil => simp [eraseA]
  | cons hd tl ih =>
      by_cases hk : hd.1 = k
      · rw [eraseA_cons_self hd tl k hk, ih]
      · rw [eraseA_cons_ne hd tl k hk, lookupA, if_neg hk, ih]

@[simp] theorem eraseA_eraseA (m : PyDict) (k : String) :
    eraseA (eraseA m k) k = eraseA m k := by
  simp [eraseA, List.filter_filter]

/-- Generic association-list lookup for tables other than style dicts. -/
def lookupL {α : Type} : List (String × α) → String → Option α
  | [], _ => Option.none
  | (k', v) :: rest, k => if k' = k then some v else lookupL rest k

/-- `sub` is a prefix of `l`. -/
def isPrefixL : List Char → List Char → Bool
  | [], _ => true
  | _ :: _, [] => false
  | a :: as, b :: bs => a == b && isPrefixL as bs

/-- `sub` occurs somewhere in `l`. -/
def containsSub (sub : List Char) : List Char → Bool
  | [] => sub.isEmpty
  | b :: bs => isPrefixL sub (b :: bs) || containsSub sub bs

/-- Python substring test `sub in hay` (used for `'color' in k`). -/
def strContains (hay sub : String) : Bool :=
  containsSub sub.data hay.data

/-- An element (spec 3): ordered dimensions, label, group, the Python type
name, per-dimension data columns, and the per-dimension declared ranges
consulted by `element.range`.  Modelled from the spec (the element classes
are outside the source file under review); membership `v in element` is
dimension-name membership. -/
structure Element where
  dims : List Dimension
  label : String
  group : String
  typeName : String
  data : List (String × List DVal)
  declaredRanges : List (String × (NumVal × NumVal))

/-- The range table (spec 3): dimension identifier to the "combined"
(min, max) pair.  Only the `combined` entry of each record is consumed by
the source, so the table maps directly to that pair. -/
abbrev Ranges := List (String × (NumVal × NumVal))

/-- `element.range(dim_name)`: the declared range, NaN bounds when the
element knows nothing about the dimension.  Modelled from the spec. -/
def Element.range (el : Element) (dn : String) : NumVal × NumVal :=
  (lookupL el.declaredRanges dn).getD (NumVal.nan, NumVal.nan)

/-- `dim.applies(element)`: every dimension referenced by the transform
exists on the element.  Modelled from the spec; in this embedding a
transform references exactly its backing dimension. -/
def DimT.applies (t : DimT) (el : Element) : Bool :=
  el.dims.any (fun d => d.name == t.dimension)

/-- One deferred operation applied elementwise; NaN propagates, strings
pass through.  Modelled from the spec. -/
def applyOp (o : Op) (d : DVal) : DVal :=
  match d with
  | .num x =>
      match o with
      | .plusC q => .num (x + q)
      | .timesC q => .num (x * q)
  | .nan => .nan
  | .str s => .str s

/-- `dim.apply(element, ranges=ranges, flat=True)`: evaluate the transform
against the element's data, producing an array aligned to element length.
Modelled from the spec (spec 4.1 step 5). -/
def DimT.apply (t : DimT) (el : Element) : PyVal :=
  PyVal.parr (((lookupL el.data t.dimension).getD []).map
    (fun d => t.ops.foldl (fun x o => applyOp o x) d))

/-- Textual representation of one deferred operation (for `repr(dim)`). -/
def opRepr (o : Op) : String :=
  match o with
  | .plusC q => "+" ++ toString q
  | .timesC q => "*" ++ toString q

/-- `repr` of a dim transform: quoted bare dimension name, or the full
expression text when operations are chained.  Modelled from the spec. -/
def reprDim (t : DimT) : String :=
  if t.ops.isEmpty then "'" ++ t.dimension ++ "'"
  else "dim('" ++ t.dimension ++ "')" ++ String.join (t.ops.map opRepr)

/-- Modelled from the spec: `dim_range_key(eldim)` (imported from
`..util`, not part of the source file under review) returns the range
table key of the attribute's backing dimension — the plain dimension name
for a bare transform or a `Dimension`, the full expression text for a
derived transform. -/
def dim_range_key (eldim : Eldim) : String :=
  match eldim with
  | .dt t => if t.ops.isEmpty then t.dimension else reprDim t
  | .dd d => d.name
  | .noneE => ""

/-- Modelled from the spec: `get_colorscale(cmap, levels, cmin, cmax)`
(imported from `.util`, not part of the source file under review) builds
the colormap/discretization description; modelled as an opaque record of
its arguments (spec 4.2: "Colormap identifier defaults to a fixed palette
name if unspecified; discretization policy derives from an optional level
count or explicit break list"). -/
def get_colorscale (cmap : PyVal) (levels : Option PyVal) (cmin cmax : NumVal) : PyVal :=
  PyVal.pcscale cmap levels cmin cmax

/-- `np.abs` on a bound value; NaN propagates. -/
def nvAbs (v : NumVal) : NumVal :=
  match v with
  | .num q => .num (abs q)
  | .nan => .nan
  | .none => .none

/-- `np.ndarray.max` over two bound values; NaN propagates. -/
def nvMax (a b : NumVal) : NumVal :=
  match a, b with
  | .num x, .num y => .num (max x y)
  | .nan, _ => .nan
  | _, .nan => .nan
  | .none, b => b
  | a, .none => a

/-- Unary minus on a bound value; `-nan` is NaN. -/
def nvNeg (v : NumVal) : NumVal :=
  match v with
  | .num q => .num (-q)
  | .nan => .nan
  | .none => .none

/-- Bound value as a Python value stored in the options dict. -/
def numToPy (v : NumVal) : PyVal :=
  match v with
  | .num q => .pnum q
  | .nan => .pnan
  | .none => .pnone

/-- A bound is finite when it is an actual number (not NaN, not None). -/
def nvFinite (v : NumVal) : Bool :=
  match v with
  | .num _ => true
  | _ => false

/-- `util.isscalar` / `np.isscalar`: true for strings, numbers and
booleans; false for arrays, dicts, `None` and transform objects. -/
def isscalar (v : PyVal) : Bool :=
  match v with
  | .pstr _ => true
  | .pnum _ => true
  | .pnan => true
  | .pbool _ => true
  | _ => false

/-- `isinstance(v, np.ndarray)`. -/
def isArr (v : PyVal) : Bool :=
  match v with
  | .parr _ => true
  | _ => false

/-- `val.dtype.kind in 'uifMm'`: the array's dtype is numeric, i.e. no
string entries (an all-numeric or empty column has a numeric dtype). -/
def isNumericArr (v : PyVal) : Bool :=
  match v with
  | .parr vs => vs.all (fun d => match d with | .str _ => false | _ => true)
  | _ => false

/-- `len(util.unique_array(val))`: number of distinct values of the
array; NaNs compare equal to each other here, as in `pandas.unique`.
Modelled from the spec (spec 4.1 step 6, "exactly one distinct value"). -/
def uniqueLen (vs : List DVal) : ℕ :=
  vs.dedup.length

/-- A scalar data value lifted into a Python value. -/
def dvalToPy (d : DVal) : PyVal :=
  match d with
  | .num q => .pnum q
  | .nan => .pnan
  | .str s => .pstr s

/-- Tick specification (`xticks`/`yticks` parameters): a list of
locations, or a list of (location, label) pairs. -/
inductive Ticker where
  | locs (vs : List DVal)
  | pairs (ps : List (DVal × DVal))

/-- The parameters of `ElementPlot`/`ColorbarPlot` that the source reads,
with their declared defaults. -/
structure Params where
  invert_axes : Bool := false
  labelled : List String := ["x", "y"]
  logx : Bool := false
  logy : Bool := false
  width : ℚ := 400
  height : ℚ := 400
  margins : ℚ × ℚ × ℚ × ℚ := (50, 50, 50, 50)
  show_legend : Bool := false
  bgcolor : Option String := Option.none
  xticks : Option Ticker := Option.none
  yticks : Option Ticker := Option.none
  colorbar : Bool := false
  symmetric : Bool := false
  colorbar_opts : PyDict := []
  color_levels : Option PyVal := Option.none

/-- A plot-option record produced by `self.lookup_options(element,
'plot')`: for each parameter, either a value to set or absent.  Applied by
`set_param` (source lines 112-114). -/
structure ParamUpdates where
  invert_axes : Option Bool := Option.none
  labelled : Option (List String) := Option.none
  logx : Option Bool := Option.none
  logy : Option Bool := Option.none
  width : Option ℚ := Option.none
  height : Option ℚ := Option.none
  margins : Option (ℚ × ℚ × ℚ × ℚ) := Option.none
  show_legend : Option Bool := Option.none
  bgcolor : Option (Option String) := Option.none
  xticks : Option (Option Ticker) := Option.none
  yticks : Option (Option Ticker) := Option.none
  colorbar : Option Bool := Option.none
  symmetric : Option Bool := Option.none
  colorbar_opts : Option PyDict := Option.none
  color_levels : Option (Option PyVal) := Option.none

/-- `self.set_param(**{k: v for k, v in plot_opts.items() if k in
self.params()})` — every supplied plot option overrides the matching
parameter. -/
def applyUpdates (u : ParamUpdates) (p : Params) : Params where
  invert_axes := u.invert_axes.getD p.invert_axes
  labelled := u.labelled.getD p.labelled
  logx := u.logx.getD p.logx
  logy := u.logy.getD p.logy
  width := u.width.getD p.width
  height := u.height.getD p.height
  margins := u.margins.getD p.margins
  show_legend := u.show_legend.getD p.show_legend
  bgcolor := u.bgcolor.getD p.bgcolor
  xticks := u.xticks.getD p.xticks
  yticks := u.yticks.getD p.yticks
  colorbar := u.colorbar.getD p.colorbar
  symmetric := u.symmetric.getD p.symmetric
  colorbar_opts := u.colorbar_opts.getD p.colorbar_opts
  color_levels := u.color_levels.getD p.color_levels

theorem optGetD_idem {α : Type} (o : Option α) (x : α) :
    o.getD (o.getD x) = o.getD x := by
  cases o <;> rfl

/-- Re-applying the same plot options is a no-op (`set_param` assigns
fixed values). -/
theorem applyUpdates_idem (u : ParamUpdates) (p : Params) :
    applyUpdates u (applyUpdates u p) = applyUpdates u p := by
  simp [applyUpdates, optGetD_idem]

/-- The colorbar title (source lines 345-348): the full expression text
of a derived transform, the bare name of an undecorated transform, the
display label of a `Dimension`. -/
def colorbarTitle (eldim : Eldim) : String :=
  match eldim with
  | .dt t => if t.ops.isEmpty then t.dimension else reprDim t
  | .dd d => d.label
  | .noneE => ""  -- `eldim.pprint_label` on None would raise; unreachable from `_apply_transforms`

/-- The symmetric-bounds replacement (source lines 362-364): `(cmin,
cmax)` becomes `(-m, m)` with `m = max(|cmin|, |cmax|)`. -/
def symmetrize (P : Params) (base : Bool × NumVal × NumVal) : Bool × NumVal × NumVal :=
  if P.symmetric then
    let m := nvMax (nvAbs base.2.1) (nvAbs base.2.2)
    (base.1, nvNeg m, m)
  else base

/-- The `(auto, cmin, cmax)` triple of `get_color_opts` (source lines
352-367): range-table combined bounds when present; otherwise NaN bounds
with `auto=True` for a `dim` transform instance, or the element's own
declared range for a bare `Dimension`; `(None, None)` with `auto=True`
when there is no dimension context at all. -/
def colorBoundsAuto (P : Params) (eldim : Eldim) (el : Element)
    (ranges : Ranges) : Bool × NumVal × NumVal :=
  match eldim with
  | .noneE => (true, NumVal.none, NumVal.none)
  | .dt t =>
      symmetrize P
        (match lookupL ranges (dim_range_key (.dt t)) with
         | some (a, b) => (false, a, b)
         | Option.none => (true, NumVal.nan, NumVal.nan))
  | .dd d =>
      symmetrize P
        (match lookupL ranges (dim_range_key (.dd d)) with
         | some (a, b) => (false, a, b)
         | Option.none =>
             (false, (el.range (dim_range_key (.dd d))).1,
              (el.range (dim_range_key (.dd d))).2))

/-- `if cmin is not None: opts['cmin'] = cmin` (source lines 371-374). -/
def addBound (opts : PyDict) (key : String) (v : NumVal) : PyDict :=
  match v with
  | .none => opts
  | .num q => setA opts key (PyVal.pnum q)
  | .nan => setA opts key PyVal.pnan

/-- `ColorbarPlot.get_color_opts(eldim, element, ranges, style)` (source
lines 341-377).  Returns the color options dict and — because
`style.pop('cmap', 'viridis')` mutates the style dict passed in — the
style dict as it is after the call. -/
def ColorbarPlot.get_color_opts (P : Params) (eldim : Eldim) (el : Element)
    (ranges : Ranges) (style : PyDict) : PyDict × PyDict :=
  let opts : PyDict :=
    if P.colorbar then
      [("colorbar", PyVal.pdict (("title", PyVal.pstr (colorbarTitle eldim)) :: P.colorbar_opts))]
    else [("showscale", PyVal.pbool false)]
  let ab := colorBoundsAuto P eldim el ranges
  let cmap := (lookupA style "cmap").getD (PyVal.pstr "viridis")
  let style2 := eraseA style "cmap"
  let colorscale := get_colorscale cmap P.color_levels ab.2.1 ab.2.2
  let opts := addBound opts "cmin" ab.2.1
  let opts := addBound opts "cmax" ab.2.2
  let opts := setA opts "cauto" (PyVal.pbool ab.1)
  let opts := setA opts "colorscale" colorscale
  (opts, style2)

/-- Spatial extent of the element: (left, bottom, right, top), optionally
with a z-pair (source lines 259-262). -/
inductive Extents where
  | e4 (l b r t : NumVal)
  | e6 (l b z0 r t z1 : NumVal)

/-- The per-class configuration and the external collaborators an
`ElementPlot` consumes: frame lookup, plot/style option lookup (spec 6:
"a style lookup producing cycling style dictionaries", returning a fresh
dict per call), the subclass `get_data` hook, range computation, extents,
axis labels, title formatting, overlay bindings, and the class attributes
`_style_key`, `_per_trace`, `_nonvectorized_styles`, `trace_kwargs`,
`STYLE_ALIASES` and the renderer backend name. -/
structure EPlotCfg where
  getFrame : String → Option Element
  plotOpts : Element → ParamUpdates
  styleOf : Element → ℕ → PyDict
  getData : Element → Ranges → PyDict → List PyDict
  computeRanges : String → Ranges → Ranges
  matchSpec : Element → Ranges → Ranges
  getExtents : Element → Ranges → Extents
  axisLabels : Element → String × String × String
  titleFmt : String → String
  overlayDims : List (Dimension × DVal)
  styleAliases : List (String × String)
  styleKey : Option String
  perTrace : Bool
  nonvectorized : List String
  traceKwargs : PyDict
  backend : String

/-- `v.dimension in self.overlay_dims` / `any(d==v for d in
self.overlay_dims)`: the name is bound by an overlay dimension. -/
def ovHas (cfg : EPlotCfg) (s : String) : Bool :=
  cfg.overlayDims.any (fun p => p.1.name == s)

/-- `self.overlay_dims[v.dimension]`: the bound overlay value. -/
def ovVal (cfg : EPlotCfg) (s : String) : DVal :=
  ((cfg.overlayDims.find? (fun p => p.1.name == s)).map Prod.snd).getD DVal.nan

/-- String coercion step of `_apply_transforms` (source lines 211-215): a
string naming an element dimension, or an overlay-bound dimension,
becomes a bare dim transform over it. -/
def coerceStyleVal (cfg : EPlotCfg) (el : Element) (v : PyVal) : PyVal :=
  match v with
  | .pstr s =>
      if el.dims.any (fun d => d.name == s) then .pdim ⟨s, []⟩
      else if ovHas cfg s then .pdim ⟨s, []⟩
      else v
  | _ => v

/-- The warning emitted when a dim transform cannot be applied (source
lines 221-222). -/
def warnMsg (k : String) (t : DimT) : String :=
  "Specified " ++ k ++ " dim transform " ++ reprDim t ++
    " could not be applied, as not all dimensions could be resolved."

/-- The structured configuration error raised for a non-vectorizable
style mapped to a dimension (source lines 237-244); it names the style
attribute, the backing dimension, the element type and the backend. -/
def nonvecMsg (style dimName elType backend : String) : String :=
  "Mapping a dimension to the \"" ++ style ++ "\" style option is not " ++
    "supported by the " ++ elType ++ " element using the " ++ backend ++
    " backend. To map the \"" ++ dimName ++ "\" dimension to the " ++ style ++
    " use a groupby operation to overlay your data along the dimension."

/-- The loop state of `_apply_transforms`: the result dict `new_style`
(initially a copy of the style dict), the live input style dict (mutated
by `get_color_opts`'s `style.pop('cmap', 'viridis')`), and the warnings
emitted so far. -/
structure ATState where
  newStyle : PyDict
  styleIn : PyDict
  warnings : List String

/-- The entries of a numpy array value (empty for non-arrays). -/
def arrVals (v : PyVal) : List DVal :=
  match v with
  | .parr vs => vs
  | _ => []

/-- The value of one applicable transform entry (source lines 225-228):
an overlay-bound bare transform uses the bound value directly, otherwise
the transform is evaluated against the element. -/
def evalVal (cfg : EPlotCfg) (el : Element) (t : DimT) : PyVal :=
  if t.ops.isEmpty ∧ ovHas cfg t.dimension then dvalToPy (ovVal cfg t.dimension)
  else t.apply el

/-- The degenerate-array collapse (source lines 230-232): a non-scalar
with exactly one distinct value under a non-color attribute becomes
`val[0]`. -/
def collapseVal (k : String) (val : PyVal) : PyVal :=
  if ¬ isscalar val ∧ uniqueLen (arrVals val) = 1 ∧ ¬ strContains k "color" then
    dvalToPy ((arrVals val).headD DVal.nan)
  else val

/-- One iteration of the `for k, v in dict(style).items()` loop of
`ElementPlot._apply_transforms` (source lines 210-252). -/
def ElementPlot.applyTransformStep (cfg : EPlotCfg) (P : Params) (el : Element)
    (ranges : Ranges) (st : ATState) (kv : String × PyVal) : Except String ATState :=
  let k := kv.1
  let v := coerceStyleVal cfg el kv.2
  match v with
  | .pdim t =>
    if ¬ t.applies el ∧ ¬ ovHas cfg t.dimension then
      -- not applicable: drop the key, warn, continue (source lines 219-223)
      .ok { st with newStyle := eraseA st.newStyle k,
                    warnings := st.warnings ++ [warnMsg k t] }
    else
      let val := collapseVal k (evalVal cfg el t)
      -- non-vectorizable guard (lines 234-244)
      if ¬ isscalar val ∧ cfg.nonvectorized.contains k then
        .error (nonvecMsg k t.dimension el.typeName cfg.backend)
      else
        -- color specialization (lines 246-251)
        if strContains k "color" ∧ isArr val ∧ isNumericArr val then
          let co := ColorbarPlot.get_color_opts P (.dt t) el ranges st.styleIn
          .ok { newStyle := setA (updateA (eraseA st.newStyle "cmap") co.1) k val,
                styleIn := co.2,
                warnings := st.warnings }
        else
          .ok { st with newStyle := setA st.newStyle k val }
  | _ => .ok st  -- literal: left as it already is in the `new_style` copy (line 217-218)

/-- `ElementPlot._apply_transforms(element, ranges, style)` (source lines
208-253): `new_style = dict(style)`, then the per-entry loop over a
snapshot of the style dict. -/
def ElementPlot.apply_transforms (cfg : EPlotCfg) (P : Params) (el : Element)
    (ranges : Ranges) (style : PyDict) : Except String ATState :=
  style.foldlM (ElementPlot.applyTransformStep cfg P el ranges)
    { newStyle := style, styleIn := style, warnings := [] }

/-- `d.pprint_value_string(v)`, modelled from the spec (§4.3: the "
dimension=value" text of an overlay binding). -/
def pprintValueString (d : Dimension) (v : DVal) : String :=
  d.label ++ ": " ++ (match v with | .str s => s | .num q => toString q | .nan => "nan")

/-- `{STYLE_ALIASES.get(k, k): v for k, v in styles.items()}` — rename
style keys through the backend alias table. -/
def aliasAll (al : List (String × String)) (m : PyDict) : PyDict :=
  m.map (fun kv => ((lookupL al kv.1).getD kv.1, kv.2))

/-- `ElementPlot.graph_options(element, ranges, style)` (source lines
144-163).  Returns the options dict, the style dict as it is after the
call, and the warnings emitted while resolving transforms. -/
def ElementPlot.graph_options (cfg : EPlotCfg) (P : Params) (el : Element)
    (ranges : Ranges) (style : PyDict) : Except String (PyDict × PyDict × List String) :=
  let legend :=
    if cfg.overlayDims.isEmpty then el.label
    else String.intercalate ", " (cfg.overlayDims.map (fun p => pprintValueString p.1 p.2))
  let opts : PyDict :=
    [("showlegend", PyVal.pbool P.show_legend),
     ("legendgroup", PyVal.pstr el.group),
     ("name", PyVal.pstr legend)] ++ cfg.traceKwargs
  match cfg.styleKey with
  | some sk => do
      let st ← ElementPlot.apply_transforms cfg P el ranges style
      Except.ok (setA opts sk (PyVal.pdict (aliasAll cfg.styleAliases st.newStyle)),
                 st.styleIn, st.warnings)
  | Option.none =>
      Except.ok (updateA opts (aliasAll cfg.styleAliases
                   (style.filter (fun kv => kv.1 ≠ "cmap"))),
                 style, [])

/-- One iteration of `init_graph`'s data-merge loop (source lines
168-172), acting on the (trace, options) pair: when the trace holds a
nested dict under the data key, `trace[k].update(v)` mutates the dict
object shared with `options`, so both components change; otherwise the
assignment `trace[k] = v` rebinds the trace entry only. -/
def graphMergeStep (acc : PyDict × PyDict) (kv : String × PyVal) :
    Except String (PyDict × PyDict) :=
  match lookupA acc.1 kv.1 with
  | some (PyVal.pdict m) =>
      match kv.2 with
      | PyVal.pdict mv =>
          let merged := PyVal.pdict (updateA m mv)
          Except.ok (setA acc.1 kv.1 merged, setA acc.2 kv.1 merged)
      | _ => Except.error "TypeError: update requires a mapping"
  | _ => Except.ok (setA acc.1 kv.1 kv.2, acc.2)

/-- `ElementPlot.init_graph(data, options, index)` (source lines 166-180).
`trace = dict(options)` is a shallow copy, so a nested dict value is the
same object in `trace` and in `options`; `trace[k].update(v)` therefore
also updates `options[k]`.  The in-place effect is made explicit by
returning `(trace, options-after-the-call)`. -/
def ElementPlot.init_graph (data options : PyDict) (index : ℕ)
    (styleKey : Option String) (perTrace : Bool) : Except String (PyDict × PyDict) := do
  let res ← data.foldlM graphMergeStep (options, options)
  let trace := res.1
  let options := res.2
  match styleKey, perTrace with
  | some sk, true =>
      match lookupA options sk with
      | some (PyVal.pdict om) =>
          let vect := om.filter (fun kv => isArr kv.2)
          match lookupA trace sk with
          | some (PyVal.pdict tm) => do
              -- `trace[sk] = dict(trace[sk])`: a fresh copy, sliced per trace
              let tm2 ← vect.foldlM
                (fun (acc : PyDict) (kv : String × PyVal) =>
                  match kv.2 with
                  | PyVal.parr vs =>
                      match vs.get? index with
                      | some dv => Except.ok (setA acc kv.1 (dvalToPy dv))
                      | Option.none => Except.error "IndexError"
                  | _ => Except.error "unreachable: vectorized entries are arrays") tm
              Except.ok (setA trace sk (PyVal.pdict tm2), options)
          | _ => Except.error "KeyError: style key missing from trace"
      | _ => Except.error "AttributeError: options style key is not a dict"
  | _, _ => Except.ok (trace, options)

/-- A layout axis record (`dict(range=[l, r], title=...)` plus the
optional `type='log'` and tick overrides, source lines 282-294). -/
structure Axis where
  range : NumVal × NumVal
  title : String
  logType : Bool := false
  tickvals : Option (List DVal) := Option.none
  ticktext : Option (List String) := Option.none

/-- The figure-level layout record (source lines 296-301).  `margin` is
stored as `(l, r, b, t)` exactly as `dict(l=l, r=r, b=b, t=t, pad=4)`
orders it; the fixed `pad=4` constant is implicit. -/
structure Layout where
  width : ℚ
  height : ℚ
  title : String
  plot_bgcolor : Option String
  margin : ℚ × ℚ × ℚ × ℚ
  xaxis : Option Axis := Option.none
  yaxis : Option Axis := Option.none

/-- A figure: `dict(data=graphs, layout=layout)` (source line 139). -/
structure Figure where
  data : List PyDict
  layout : Layout

/-- `str(l)` for a tick label that is not already a string. -/
def tickLabelStr (d : DVal) : String :=
  match d with
  | .str s => s
  | .num q => toString q
  | .nan => "nan"

/-- `ElementPlot._get_ticks(axis, ticker)` (source lines 303-314): a list
of (position, label) tuples yields both `tickvals` and `ticktext`; a
plain list yields `tickvals`; anything else leaves the axis unchanged. -/
def ElementPlot.get_ticks (axis : Axis) (ticker : Option Ticker) : Axis :=
  match ticker with
  | some (.pairs ps) =>
      { axis with tickvals := some (ps.map Prod.fst),
                  ticktext := some (ps.map (fun p => tickLabelStr p.2)) }
  | some (.locs vs) => { axis with tickvals := some vs }
  | Option.none => axis

/-- `ElementPlot.init_layout(key, element, ranges)` (source lines
256-301). -/
def ElementPlot.init_layout (cfg : EPlotCfg) (P : Params) (key : String)
    (el : Element) (ranges : Ranges) : Layout :=
  let ext := cfg.getExtents el ranges
  let lbrt : NumVal × NumVal × NumVal × NumVal :=
    match ext with
    | .e4 l b r t => (l, b, r, t)
    | .e6 l b _ r t _ => (l, b, r, t)
  -- `xdim, ydim` from `self._get_axis_dims(element)` = element.dimensions()[:2]
  let xdim := el.dims.get? 0
  let ydim := el.dims.get? 1
  let labels := cfg.axisLabels el
  -- axis inversion (source lines 273-275): swap labels and extent together
  let xylabels :=
    if P.invert_axes then (labels.2.1, labels.1) else (labels.1, labels.2.1)
  let lbrt :=
    if P.invert_axes then (lbrt.2.1, lbrt.1, lbrt.2.2.2, lbrt.2.2.1) else lbrt
  -- label suppression (source lines 277-280)
  let xlabel := if P.labelled.contains "x" then xylabels.1 else ""
  let ylabel := if P.labelled.contains "y" then xylabels.2 else ""
  let xaxis :=
    if xdim.isSome then
      some (ElementPlot.get_ticks
        { range := (lbrt.1, lbrt.2.2.1), title := xlabel, logType := P.logx } P.xticks)
    else Option.none
  let yaxis :=
    if ydim.isSome then
      some (ElementPlot.get_ticks
        { range := (lbrt.2.1, lbrt.2.2.2), title := ylabel, logType := P.logy } P.yticks)
    else Option.none
  { width := P.width, height := P.height, title := cfg.titleFmt key,
    plot_bgcolor := P.bgcolor,
    margin := (P.margins.1, P.margins.2.2.1, P.margins.2.1, P.margins.2.2.2),
    xaxis := xaxis, yaxis := yaxis }

/-- The mutable state a plot instance carries across `generate_plot`
calls: its parameters, `self.style` and the `self.handles` entries the
source writes (lines 121, 132, 136, 140). -/
structure EPlotState where
  params : Params
  styleDict : Option PyDict := Option.none
  handles_fig : Option Figure := Option.none
  handles_graphs : Option (List PyDict) := Option.none
  handles_layout : Option Layout := Option.none

/-- `ElementPlot.generate_plot(key, ranges)` (source lines 106-141),
with the externally owned cyclic index passed explicitly.  Returns the
updated plot state, the figure, and the warnings emitted. -/
def ElementPlot.generate_plot (cfg : EPlotCfg) (key : String) (ranges : Ranges)
    (cyclicIndex : ℕ) (st : EPlotState) :
    Except String (EPlotState × Figure × List String) :=
  match cfg.getFrame key with
  | Option.none =>
      match st.handles_fig with
      | some f => Except.ok (st, f, [])
      | Option.none => Except.error "KeyError: fig"
  | some el =>
      let P := applyUpdates (cfg.plotOpts el) st.params
      let R := cfg.matchSpec el (cfg.computeRanges key ranges)
      let style := cfg.styleOf el cyclicIndex
      let data := cfg.getData el R style
      (do
        let go ← ElementPlot.graph_options cfg P el R style
        let gr ← (data.enum).foldlM
          (fun (acc : List PyDict × PyDict) (pr : ℕ × PyDict) => do
            let g ← ElementPlot.init_graph pr.2 acc.2 pr.1 cfg.styleKey cfg.perTrace
            Except.ok (acc.1 ++ [g.1], g.2)) ([], go.1)
        let layout := ElementPlot.init_layout cfg P key el R
        let fig : Figure := { data := gr.1, layout := layout }
        Except.ok ({ params := P, styleDict := some style, handles_fig := some fig,
                     handles_graphs := some gr.1, handles_layout := some layout },
                   fig, go.2.2))

/-- `figure['layout'].update(layout)`: every key of the overlay layout
(width, height, title, bgcolor, margin, and the axes when present)
overwrites the merged child layout's value; child keys absent from the
overlay layout survive. -/
def layoutUpdate (child over : Layout) : Layout :=
  { width := over.width, height := over.height, title := over.title,
    plot_bgcolor := over.plot_bgcolor, margin := over.margin,
    xaxis := over.xaxis.orElse (fun _ => child.xaxis),
    yaxis := over.yaxis.orElse (fun _ => child.yaxis) }

/-- Modelled from the spec: `merge_figure(figure, fig)` (imported from
`.util`, not part of the source file under review) appends the second
figure's traces to the first's, in order, and merges the layout (spec
§4.5: "trace lists concatenate in iteration order"). -/
def merge_figure (f g : Figure) : Figure :=
  { data := f.data ++ g.data, layout := layoutUpdate f.layout g.layout }

/-- One child plot of an overlay: its configuration, cyclic index and
mutable state. -/
structure SubPlot where
  cfg : EPlotCfg
  cyclicIndex : ℕ
  st : EPlotState

/-- One iteration of the overlay's child loop (source lines 402-407): run
the child, seed the combined figure with the first child's figure, merge
later figures into it. -/
def overlayStep (key : String) (R : Ranges) (acc : List SubPlot × Option Figure)
    (sp : SubPlot) : Except String (List SubPlot × Option Figure) := do
  let r ← ElementPlot.generate_plot sp.cfg key R sp.cyclicIndex sp.st
  let fig' :=
    match acc.2 with
    | Option.none => r.2.1
    | some f => merge_figure f r.2.1
  Except.ok (acc.1 ++ [{ sp with st := r.1 }], some fig')

/-- `OverlayPlot.generate_plot(key, ranges)` (source lines 397-412): every
child generates with the same key and shared ranges; the first child's
figure seeds the result, later figures are merged; finally the overlay's
own layout overwrites matching keys. -/
def OverlayPlot.generate_plot (ocfg : EPlotCfg) (oP : Params) (key : String)
    (ranges : Ranges) (subs : List SubPlot) :
    Except String (List SubPlot × Figure) := do
  let R := ocfg.computeRanges key ranges
  let res ← subs.foldlM (overlayStep key R) ([], Option.none)
  match res.2, ocfg.getFrame key with
  | some f, some el =>
      let layout := ElementPlot.init_layout ocfg oP key el R
      Except.ok (res.1, { f with layout := layoutUpdate f.layout layout })
  | _, _ => Except.error "TypeError: no subplot figure or no frame"

/-- C7: when symmetric mode is enabled the resolved pair satisfies
cmax = −cmin = max(|original cmin|, |original cmax|). -/
theorem get_color_opts_symmetric (P : Params) (eldim : Eldim) (el : Element)
    (ranges : Ranges) (style : PyDict) (a b : ℚ)
    (hsym : P.symmetric = true)
    (hne : eldim ≠ Eldim.noneE)
    (hrng : lookupL ranges (dim_range_key eldim) = some (NumVal.num a, NumVal.num b)) :
    lookupA (ColorbarPlot.get_color_opts P eldim el ranges style).1 "cmin"
        = some (PyVal.pnum (-(max (abs a) (abs b)))) ∧
    lookupA (ColorbarPlot.get_color_opts P eldim el ranges style).1 "cmax"
        = some (PyVal.pnum (max (abs a) (abs b))) := by
  cases eldim with
  | noneE => exact absurd rfl hne
  | dt t =>
      simp only [ColorbarPlot.get_color_opts, colorBoundsAuto, symmetrize, hrng,
        hsym, if_pos, nvAbs, nvMax, nvNeg, addBound]
      constructor
      · rw [lookupA_setA_ne _ _ _ _ (by decide), lookupA_setA_ne _ _ _ _ (by decide),
          lookupA_setA_ne _ _ _ _ (by decide), lookupA_setA_self]
      · rw [lookupA_setA_ne _ _ _ _ (by decide), lookupA_setA_ne _ _ _ _ (by decide),
          lookupA_setA_self]
  | dd d =>
      simp only [ColorbarPlot.get_color_opts, colorBoundsAuto, symmetrize, hrng,
        hsym, if_pos, nvAbs, nvMax, nvNeg, addBound]
      constructor
      · rw [lookupA_setA_ne _ _ _ _ (by decide), lookupA_setA_ne _ _ _ _ (by decide),
          lookupA_setA_ne _ _ _ _ (by decide), lookupA_setA_self]
      · rw [lookupA_setA_ne _ _ _ _ (by decide), lookupA_setA_ne _ _ _ _ (by decide),
          lookupA_setA_self]

theorem addBound_eq (opts : PyDict) (k : String) (v : NumVal)
    (h : v ≠ NumVal.none) : addBound opts k v = setA opts k (numToPy v) := by
  cases v with
  | num q => rfl
  | nan => rfl
  | none => exact absurd rfl h

theorem lookupA_addBound_ne (opts : PyDict) (k k' : String) (v : NumVal)
    (h : k' ≠ k) : lookupA (addBound opts k v) k' = lookupA opts k' := by
  cases v <;> simp [addBound, lookupA_setA_ne _ _ _ _ h]

theorem symmetrize_false (P : Params) (base : Bool × NumVal × NumVal)
    (h : P.symmetric = false) : symmetrize P base = base := by
  simp [symmetrize, h]

theorem gco_lookup_cauto (P : Params) (eldim : Eldim) (el : Element)
    (ranges : Ranges) (style : PyDict) :
    lookupA (ColorbarPlot.get_color_opts P eldim el ranges style).1 "cauto"
      = some (PyVal.pbool (colorBoundsAuto P eldim el ranges).1) := by
  unfold ColorbarPlot.get_color_opts
  rw [lookupA_setA_ne _ _ _ _ (by decide), lookupA_setA_self]

theorem gco_lookup_cmin (P : Params) (eldim : Eldim) (el : Element)
    (ranges : Ranges) (style : PyDict)
    (h : (colorBoundsAuto P eldim el ranges).2.1 ≠ NumVal.none) :
    lookupA (ColorbarPlot.get_color_opts P eldim el ranges style).1 "cmin"
      = some (numToPy (colorBoundsAuto P eldim el ranges).2.1) := by
  unfold ColorbarPlot.get_color_opts
  rw [lookupA_setA_ne _ _ _ _ (by decide), lookupA_setA_ne _ _ _ _ (by decide),
    lookupA_addBound_ne _ _ _ _ (by decide), addBound_eq _ _ _ h, lookupA_setA_self]

theorem gco_lookup_cmax (P : Params) (eldim : Eldim) (el : Element)
    (ranges : Ranges) (style : PyDict)
    (h : (colorBoundsAuto P eldim el ranges).2.2 ≠ NumVal.none) :
    lookupA (ColorbarPlot.get_color_opts P eldim el ranges style).1 "cmax"
      = some (numToPy (colorBoundsAuto P eldim el ranges).2.2) := by
  unfold ColorbarPlot.get_color_opts
  rw [lookupA_setA_ne _ _ _ _ (by decide), lookupA_setA_ne _ _ _ _ (by decide),
    addBound_eq _ _ _ h, lookupA_setA_self]

theorem gco_lookup_cmin_none (P : Params) (eldim : Eldim) (el : Element)
    (ranges : Ranges) (style : PyDict)
    (h : (colorBoundsAuto P eldim el ranges).2.1 = NumVal.none) :
    lookupA (ColorbarPlot.get_color_opts P eldim el ranges style).1 "cmin"
      = Option.none := by
  unfold ColorbarPlot.get_color_opts
  rw [lookupA_setA_ne _ _ _ _ (by decide), lookupA_setA_ne _ _ _ _ (by decide),
    lookupA_addBound_ne _ _ _ _ (by decide), h]
  show lookupA (addBound _ _ NumVal.none) "cmin" = Option.none
  cases hc : P.colorbar <;> simp [addBound, hc, lookupA]

theorem gco_lookup_cmax_none (P : Params) (eldim : Eldim) (el : Element)
    (ranges : Ranges) (style : PyDict)
    (h : (colorBoundsAuto P eldim el ranges).2.2 = NumVal.none) :
    lookupA (ColorbarPlot.get_color_opts P eldim el ranges style).1 "cmax"
      = Option.none := by
  unfold ColorbarPlot.get_color_opts
  rw [lookupA_setA_ne _ _ _ _ (by decide), lookupA_setA_ne _ _ _ _ (by decide), h]
  show lookupA (addBound (addBound _ _ _) _ NumVal.none) "cmax" = Option.none
  rw [addBound]
  rw [lookupA_addBound_ne _ _ _ _ (by decide)]
  cases hc : P.colorbar <;> simp [hc, lookupA]

theorem cba_noneE (P : Params) (el : Element) (ranges : Ranges) :
    colorBoundsAuto P Eldim.noneE el ranges = (true, NumVal.none, NumVal.none) := rfl

theorem cba_dt_some (P : Params) (t : DimT) (el : Element) (ranges : Ranges)
    (a b : NumVal) (hs : P.symmetric = false)
    (h : lookupL ranges (dim_range_key (Eldim.dt t)) = some (a, b)) :
    colorBoundsAuto P (Eldim.dt t) el ranges = (false, a, b) := by
  simp [colorBoundsAuto, h, symmetrize_false _ _ hs]

theorem cba_dt_none (P : Params) (t : DimT) (el : Element) (ranges : Ranges)
    (hs : P.symmetric = false)
    (h : lookupL ranges (dim_range_key (Eldim.dt t)) = Option.none) :
    colorBoundsAuto P (Eldim.dt t) el ranges = (true, NumVal.nan, NumVal.nan) := by
  simp [colorBoundsAuto, h, symmetrize_false _ _ hs]

theorem cba_dd_some (P : Params) (d : Dimension) (el : Element) (ranges : Ranges)
    (a b : NumVal) (hs : P.symmetric = false)
    (h : lookupL ranges (dim_range_key (Eldim.dd d)) = some (a, b)) :
    colorBoundsAuto P (Eldim.dd d) el ranges = (false, a, b) := by
  simp [colorBoundsAuto, h, symmetrize_false _ _ hs]

theorem cba_dd_none (P : Params) (d : Dimension) (el : Element) (ranges : Ranges)
    (hs : P.symmetric = false)
    (h : lookupL ranges (dim_range_key (Eldim.dd d)) = Option.none) :
    colorBoundsAuto P (Eldim.dd d) el ranges
      = (false, (el.range d.name).1, (el.range d.name).2) := by
  have h2 : lookupL ranges d.name = Option.none := h
  simp [colorBoundsAuto, h2, symmetrize_false _ _ hs, dim_range_key]

/-- C6 (amended): with a dimension context, `get_color_opts` takes
(cmin, cmax) from the range table's combined entry for the backing
dimension when one exists (auto=false); otherwise a `dim`-transform
(derived, non-bare `Dimension`) style gets auto=true with undefined
(NaN) bounds, while a bare `Dimension` falls back to the element's own
declared range (auto=false); and auto=true exactly when the style
attribute is a derived transform with no range-table entry — the bounds
a table entry or declared range provides are used verbatim, finite or
not, so auto stays false even when those bounds are NaN. -/
theorem get_color_opts_bounds (P : Params) (el : Element) (ranges : Ranges)
    (style : PyDict)
    (hsym : P.symmetric = false) :
    (∀ eldim a b, eldim ≠ Eldim.noneE →
       lookupL ranges (dim_range_key eldim) = some (a, b) →
       lookupA (ColorbarPlot.get_color_opts P eldim el ranges style).1 "cauto"
           = some (PyVal.pbool false) ∧
       (a ≠ NumVal.none →
         lookupA (ColorbarPlot.get_color_opts P eldim el ranges style).1 "cmin"
           = some (numToPy a)) ∧
       (b ≠ NumVal.none →
         lookupA (ColorbarPlot.get_color_opts P eldim el ranges style).1 "cmax"
           = some (numToPy b)))
    ∧
    (∀ t, lookupL ranges (dim_range_key (Eldim.dt t)) = Option.none →
       lookupA (ColorbarPlot.get_color_opts P (Eldim.dt t) el ranges style).1 "cauto"
           = some (PyVal.pbool true) ∧
       lookupA (ColorbarPlot.get_color_opts P (Eldim.dt t) el ranges style).1 "cmin"
           = some PyVal.pnan ∧
       lookupA (ColorbarPlot.get_color_opts P (Eldim.dt t) el ranges style).1 "cmax"
           = some PyVal.pnan)
    ∧
    (∀ d, lookupL ranges (dim_range_key (Eldim.dd d)) = Option.none →
       lookupA (ColorbarPlot.get_color_opts P (Eldim.dd d) el ranges style).1 "cauto"
           = some (PyVal.pbool false) ∧
       ((el.range d.name).1 ≠ NumVal.none →
         lookupA (ColorbarPlot.get_color_opts P (Eldim.dd d) el ranges style).1 "cmin"
           = some (numToPy (el.range d.name).1)) ∧
       ((el.range d.name).2 ≠ NumVal.none →
         lookupA (ColorbarPlot.get_color_opts P (Eldim.dd d) el ranges style).1 "cmax"
           = some (numToPy (el.range d.name).2)))
    ∧
    (∀ eldim, eldim ≠ Eldim.noneE →
       ((lookupA (ColorbarPlot.get_color_opts P eldim el ranges style).1 "cauto"
           = some (PyVal.pbool true)) ↔
        ((∃ t, eldim = Eldim.dt t) ∧
         lookupL ranges (dim_range_key eldim) = Option.none))) := by
  refine ⟨?_, ?_, ?_, ?_⟩
  · intro eldim a b hne hr
    have hcba : colorBoundsAuto P eldim el ranges = (false, a, b) := by
      cases eldim with
      | noneE => exact absurd rfl hne
      | dt t => exact cba_dt_some P t el ranges a b hsym hr
      | dd d => exact cba_dd_some P d el ranges a b hsym hr
    refine ⟨?_, ?_, ?_⟩
    · rw [gco_lookup_cauto, hcba]
    · intro ha
      rw [gco_lookup_cmin P eldim el ranges style (by rw [hcba]; exact ha), hcba]
    · intro hb
      rw [gco_lookup_cmax P eldim el ranges style (by rw [hcba]; exact hb), hcba]
  · intro t hr
    have hcba := cba_dt_none P t el ranges hsym hr
    refine ⟨?_, ?_, ?_⟩
    · rw [gco_lookup_cauto, hcba]
    · rw [gco_lookup_cmin P _ el ranges style (by rw [hcba]; decide), hcba]
      rfl
    · rw [gco_lookup_cmax P _ el ranges style (by rw [hcba]; decide), hcba]
      rfl
  · intro d hr
    have hcba := cba_dd_none P d el ranges hsym hr
    refine ⟨?_, ?_, ?_⟩
    · rw [gco_lookup_cauto, hcba]
    · intro ha
      rw [gco_lookup_cmin P _ el ranges style (by rw [hcba]; exact ha), hcba]
    · intro hb
      rw [gco_lookup_cmax P _ el ranges style (by rw [hcba]; exact hb), hcba]
  · intro eldim hne
    cases eldim with
    | noneE => exact absurd rfl hne
    | dt t =>
        cases hr : lookupL ranges (dim_range_key (Eldim.dt t)) with
        | some ab =>
            obtain ⟨a, b⟩ := ab
            have hcba := cba_dt_some P t el ranges a b hsym hr
            rw [gco_lookup_cauto, hcba]
            constructor
            · intro hc
              exact absurd hc (by simp)
            · intro hc
              exact Option.noConfusion hc.2
        | none =>
            have hcba := cba_dt_none P t el ranges hsym hr
            rw [gco_lookup_cauto, hcba]
            exact ⟨fun _ => ⟨⟨t, rfl⟩, rfl⟩, fun _ => rfl⟩
    | dd d =>
        cases hr : lookupL ranges (dim_range_key (Eldim.dd d)) with
        | some ab =>
            obtain ⟨a, b⟩ := ab
            have hcba := cba_dd_some P d el ranges a b hsym hr
            rw [gco_lookup_cauto, hcba]
            constructor
            · intro hc
              exact absurd hc (by simp)
            · intro hc
              obtain ⟨⟨t, ht⟩, _⟩ := hc
              exact Eldim.noConfusion ht
        | none =>
            have hcba := cba_dd_none P d el ranges hsym hr
            rw [gco_lookup_cauto, hcba]
            constructor
            · intro hc
              exact absurd hc (by simp)
            · intro hc
              obtain ⟨⟨t, ht⟩, _⟩ := hc
              exact Eldim.noConfusion ht

/-- A sample element: dimensions x, y, size with constant "size" data. -/
def sampleEl : Element :=
  { dims := [⟨"x", "x-label"⟩, ⟨"y", "y-label"⟩, ⟨"size", "size-label"⟩],
    label := "lbl", group := "Scatter", typeName := "Scatter",
    data := [("x", [.num 1, .num 2]), ("y", [.num 3, .num 4]),
             ("size", [.num 5, .num 5])],
    declaredRanges := [("x", (.num 1, .num 2)), ("y", (.num 3, .num 4)),
                       ("size", (.num 5, .num 5))] }

/-- A sample range table with combined bounds for "size". -/
def sampleRanges : Ranges := [("size", (NumVal.num (-2), NumVal.num 7))]

/-- Witness for C7 at a concrete input. -/
theorem get_color_opts_symmetric_witness :
    (({ symmetric := true } : Params)).symmetric = true ∧
    lookupA (ColorbarPlot.get_color_opts { symmetric := true }
        (Eldim.dt ⟨"size", []⟩) sampleEl sampleRanges []).1 "cmin"
      = some (PyVal.pnum (-(max (abs (-2 : ℚ)) (abs (7 : ℚ))))) ∧
    lookupA (ColorbarPlot.get_color_opts { symmetric := true }
        (Eldim.dt ⟨"size", []⟩) sampleEl sampleRanges []).1 "cmax"
      = some (PyVal.pnum (max (abs (-2 : ℚ)) (abs (7 : ℚ)))) := by
  refine ⟨rfl, ?_⟩
  exact get_color_opts_symmetric { symmetric := true } (Eldim.dt ⟨"size", []⟩)
    sampleEl sampleRanges [] (-2) 7 rfl (by decide) rfl

/-- Witness for C6 at concrete inputs: range-table bounds with
auto=false for "size", auto=true with NaN bounds for a derived
transform with no table entry, and the auto characterisation at a bare
Dimension with no table entry. -/
theorem get_color_opts_bounds_witness :
    lookupA (ColorbarPlot.get_color_opts {} (Eldim.dt ⟨"size", []⟩)
        sampleEl sampleRanges []).1 "cauto" = some (PyVal.pbool false) ∧
    lookupA (ColorbarPlot.get_color_opts {} (Eldim.dt ⟨"size", []⟩)
        sampleEl sampleRanges []).1 "cmin" = some (numToPy (NumVal.num (-2))) ∧
    lookupA (ColorbarPlot.get_color_opts {} (Eldim.dt ⟨"y", [Op.plusC 1]⟩)
        sampleEl sampleRanges []).1 "cauto" = some (PyVal.pbool true) ∧
    lookupA (ColorbarPlot.get_color_opts {} (Eldim.dt ⟨"y", [Op.plusC 1]⟩)
        sampleEl sampleRanges []).1 "cmin" = some PyVal.pnan ∧
    ¬ lookupA (ColorbarPlot.get_color_opts {} (Eldim.dd ⟨"y", "y-label"⟩)
        sampleEl sampleRanges []).1 "cauto" = some (PyVal.pbool true) := by
  have H := get_color_opts_bounds {} sampleEl sampleRanges [] rfl
  have h1 := H.1 (Eldim.dt ⟨"size", []⟩) (NumVal.num (-2)) (NumVal.num 7)
    (by decide) (by decide)
  have h2 := H.2.1 ⟨"y", [Op.plusC 1]⟩ (by decide)
  have h3 : ¬ lookupA (ColorbarPlot.get_color_opts {} (Eldim.dd ⟨"y", "y-label"⟩)
      sampleEl sampleRanges []).1 "cauto" = some (PyVal.pbool true) := by
    intro hc
    obtain ⟨⟨t, ht⟩, _⟩ :=
      (H.2.2.2 (Eldim.dd ⟨"y", "y-label"⟩) (by decide)).mp hc
    exact Eldim.noConfusion ht
  exact ⟨h1.1, h1.2.1 (by decide), h2.1, h2.2.1, h3⟩

/-- C6 counterexample to the original invariant "auto=true iff no
finite (cmin, cmax) could be determined": a range-table entry of
(NaN, NaN) for the backing dimension — reachable when the computed
range of a transformed quantity is undefined — yields cauto=false even
though both bounds are NaN, i.e. no finite bounds were determined. -/
theorem get_color_opts_bounds_cex :
    lookupA (ColorbarPlot.get_color_opts {} (Eldim.dt ⟨"size", []⟩)
        sampleEl [("size", (NumVal.nan, NumVal.nan))] []).1 "cauto"
      = some (PyVal.pbool false) ∧
    lookupA (ColorbarPlot.get_color_opts {} (Eldim.dt ⟨"size", []⟩)
        sampleEl [("size", (NumVal.nan, NumVal.nan))] []).1 "cmin"
      = some PyVal.pnan ∧
    lookupA (ColorbarPlot.get_color_opts {} (Eldim.dt ⟨"size", []⟩)
        sampleEl [("size", (NumVal.nan, NumVal.nan))] []).1 "cmax"
      = some PyVal.pnan := ⟨rfl, rfl, rfl⟩

/-- C3: a style attribute backed by a transform that evaluates to an
array with exactly one distinct value is collapsed to that scalar when
its name does not contain "color" (never an array), and is never
collapsed when its name does contain "color". -/
theorem apply_transforms_collapse (cfg : EPlotCfg) (P : Params) (el : Element)
    (ranges : Ranges) (st : ATState) (k : String) (t : DimT) (vs : List DVal)
    (happ : t.applies el = true)
    (hov : t.ops = [] → ovHas cfg t.dimension = false)
    (heval : t.apply el = PyVal.parr vs)
    (huniq : uniqueLen vs = 1)
    (hnv : cfg.nonvectorized.contains k = false) :
    (strContains k "color" = false →
       ElementPlot.applyTransformStep cfg P el ranges st (k, PyVal.pdim t)
         = Except.ok { st with
             newStyle := setA st.newStyle k (dvalToPy (vs.headD DVal.nan)) } ∧
       isscalar (dvalToPy (vs.headD DVal.nan)) = true ∧
       isArr (dvalToPy (vs.headD DVal.nan)) = false) ∧
    (strContains k "color" = true →
       ∃ st', ElementPlot.applyTransformStep cfg P el ranges st (k, PyVal.pdim t)
                = Except.ok st' ∧
              lookupA st'.newStyle k = some (PyVal.parr vs)) := by
  have hval : evalVal cfg el t = PyVal.parr vs := by
    cases hops : t.ops with
    | nil => simp [evalVal, hov hops, heval, hops]
    | cons o os => simp [evalVal, hops, heval]
  constructor
  · intro hc
    have hscal : isscalar (dvalToPy (vs.headD DVal.nan)) = true := by
      cases h : vs.headD DVal.nan <;> simp [dvalToPy, isscalar]
    have harr : isArr (dvalToPy (vs.headD DVal.nan)) = false := by
      cases h : vs.headD DVal.nan <;> simp [dvalToPy, isArr]
    have hcol : collapseVal k (evalVal cfg el t) = dvalToPy (vs.headD DVal.nan) := by
      simp [collapseVal, hval, isscalar, arrVals, huniq, hc]
    refine ⟨?_, hscal, harr⟩
    simp only [ElementPlot.applyTransformStep, coerceStyleVal]
    rw [hcol]
    simp [happ, huniq, hc, hscal, hnv]
    intro hf
    have hscal2 : isscalar (dvalToPy (vs.head?.getD DVal.nan)) = true := by
      cases vs with
      | nil => simp [dvalToPy, isscalar]
      | cons a l => cases a <;> simp [dvalToPy, isscalar]
    rw [hscal2] at hf
    exact Bool.noConfusion hf
  · intro hc
    have hmem : k ∉ cfg.nonvectorized := by simpa using hnv
    have hcol : collapseVal k (evalVal cfg el t) = PyVal.parr vs := by
      simp [collapseVal, hval, hc]
    by_cases hnum : isNumericArr (PyVal.parr vs) = true
    · refine ⟨⟨setA (updateA (eraseA st.newStyle "cmap") (ColorbarPlot.get_color_opts P (Eldim.dt t) el ranges st.styleIn).1) k (PyVal.parr vs), (ColorbarPlot.get_color_opts P (Eldim.dt t) el ranges st.styleIn).2, st.warnings⟩, ?_, ?_⟩
      · simp only [ElementPlot.applyTransformStep, coerceStyleVal]
        rw [hcol]
        simp [happ, hc, isscalar, hmem, isArr, hnum]
      · exact lookupA_setA_self _ _ _
    · refine ⟨{ st with newStyle := setA st.newStyle k (PyVal.parr vs) }, ?_, ?_⟩
      · simp only [ElementPlot.applyTransformStep, coerceStyleVal]
        rw [hcol]
        simp [happ, hc, isscalar, hmem, isArr, hnum]
      · exact lookupA_setA_self _ _ _

/-- A sample `ElementPlot` configuration for `sampleEl`. -/
def sampleCfg : EPlotCfg :=
  { getFrame := fun _ => some sampleEl,
    plotOpts := fun _ => {},
    styleOf := fun _ _ => [("size", PyVal.pstr "size")],
    getData := fun _ _ _ => [],
    computeRanges := fun _ r => r,
    matchSpec := fun _ r => r,
    getExtents := fun _ _ => Extents.e4 (.num 0) (.num 0) (.num 10) (.num 20),
    axisLabels := fun _ => ("x-label", "y-label", ""),
    titleFmt := fun k => k,
    overlayDims := [],
    styleAliases := [],
    styleKey := some "marker",
    perTrace := false,
    nonvectorized := [],
    traceKwargs := [],
    backend := "plotly" }

/-- Witness for C3 at a concrete input: the constant "size" column
collapses to the scalar 5 under the attribute "size" but stays an array
under the attribute "color". -/
theorem apply_transforms_collapse_witness :
    (ElementPlot.applyTransformStep sampleCfg {} sampleEl sampleRanges ⟨[], [], []⟩
        ("size", PyVal.pdim ⟨"size", []⟩)
      = Except.ok ⟨[("size", PyVal.pnum 5)], [], []⟩) ∧
    (∃ st', ElementPlot.applyTransformStep sampleCfg {} sampleEl sampleRanges ⟨[], [], []⟩
        ("color", PyVal.pdim ⟨"size", []⟩) = Except.ok st' ∧
      lookupA st'.newStyle "color" = some (PyVal.parr [DVal.num 5, DVal.num 5])) := by
  have H1 := apply_transforms_collapse sampleCfg {} sampleEl sampleRanges ⟨[], [], []⟩
    "size" ⟨"size", []⟩ [DVal.num 5, DVal.num 5] rfl (fun _ => rfl) rfl (by decide) rfl
  have H2 := apply_transforms_collapse sampleCfg {} sampleEl sampleRanges ⟨[], [], []⟩
    "color" ⟨"size", []⟩ [DVal.num 5, DVal.num 5] rfl (fun _ => rfl) rfl (by decide) rfl
  exact ⟨(H1.1 rfl).1, H2.2 rfl⟩

/-- Once one entry of the style dict makes the per-entry step fail, the
whole fold fails. -/
theorem foldlM_error_of_mem
    (f : ATState → String × PyVal → Except String ATState)
    (l : List (String × PyVal)) (kv : String × PyVal) (hmem : kv ∈ l)
    (herr : ∀ s, ∃ e, f s kv = Except.error e) :
    ∀ st, ∃ e, List.foldlM f st l = Except.error e := by
  induction l with
  | nil => cases hmem
  | cons hd tl ih =>
      intro st
      rw [List.foldlM_cons]
      cases hstep : f st hd with
      | error e => exact ⟨e, rfl⟩
      | ok st' =>
          rcases List.mem_cons.mp hmem with h | h
          · obtain ⟨e, he⟩ := herr st
            rw [h] at he
            rw [he] at hstep
            exact Except.noConfusion hstep
          · obtain ⟨e, he⟩ := ih h st'
            exact ⟨e, he⟩

/-- C4: a transform-backed style attribute that is still an array after
the collapse and is declared non-vectorizable makes `_apply_transforms`
raise the structured configuration error naming the attribute, the
backing dimension, the element type and the backend; the whole style
resolution and the element's figure generation abort, and the array is
never coerced to a scalar. -/
theorem apply_transforms_nonvectorized_error (cfg : EPlotCfg) (P : Params)
    (el : Element) (ranges : Ranges) (style : PyDict) (st0 : EPlotState)
    (key : String) (ranges0 : Ranges) (ci : ℕ) (sk : String)
    (k : String) (t : DimT) (vs : List DVal)
    (hsk : cfg.styleKey = some sk)
    (hmem : (k, PyVal.pdim t) ∈ style)
    (happ : t.applies el = true)
    (hov : t.ops = [] → ovHas cfg t.dimension = false)
    (heval : t.apply el = PyVal.parr vs)
    (hstill : uniqueLen vs ≠ 1 ∨ strContains k "color" = true)
    (hnv : k ∈ cfg.nonvectorized)
    (hframe : cfg.getFrame key = some el)
    (hstyleOf : cfg.styleOf el ci = style)
    (hP : applyUpdates (cfg.plotOpts el) st0.params = P)
    (hranges : cfg.matchSpec el (cfg.computeRanges key ranges0) = ranges) :
    (∀ s, ElementPlot.applyTransformStep cfg P el ranges s (k, PyVal.pdim t)
        = Except.error (nonvecMsg k t.dimension el.typeName cfg.backend)) ∧
    (∃ e, ElementPlot.apply_transforms cfg P el ranges style = Except.error e) ∧
    (∃ e, ElementPlot.generate_plot cfg key ranges0 ci st0 = Except.error e) := by
  have hval : evalVal cfg el t = PyVal.parr vs := by
    cases hops : t.ops with
    | nil => simp [evalVal, hov hops, heval, hops]
    | cons o os => simp [evalVal, hops, heval]
  have hcol : collapseVal k (evalVal cfg el t) = PyVal.parr vs := by
    rcases hstill with h1 | h1
    · simp [collapseVal, hval, arrVals, h1]
    · simp [collapseVal, hval, arrVals, h1]
  have hstep : ∀ s, ElementPlot.applyTransformStep cfg P el ranges s (k, PyVal.pdim t)
      = Except.error (nonvecMsg k t.dimension el.typeName cfg.backend) := by
    intro s
    simp only [ElementPlot.applyTransformStep, coerceStyleVal]
    rw [hcol]
    simp [happ, isscalar, hnv]
  have hat : ∃ e, ElementPlot.apply_transforms cfg P el ranges style
      = Except.error e := by
    exact foldlM_error_of_mem _ style (k, PyVal.pdim t) hmem
      (fun s => ⟨_, hstep s⟩) _
  refine ⟨hstep, hat, ?_⟩
  obtain ⟨e, he⟩ := hat
  have hgo : ElementPlot.graph_options cfg P el ranges style = Except.error e := by
    simp only [ElementPlot.graph_options, hsk]
    rw [he]
    rfl
  refine ⟨e, ?_⟩
  simp only [ElementPlot.generate_plot, hframe, hP, hranges, hstyleOf]
  rw [hgo]
  rfl

/-- `sampleCfg` with "size" declared non-vectorizable and a style that
maps it to the (two-valued) "x" dimension. -/
def sampleCfgNV : EPlotCfg := { sampleCfg with
  nonvectorized := ["size"]
  styleOf := fun _ _ => [("size", PyVal.pdim ⟨"x", []⟩)] }

/-- Witness for C4 at a concrete input. -/
theorem apply_transforms_nonvectorized_error_witness :
    (ElementPlot.applyTransformStep sampleCfgNV {} sampleEl sampleRanges ⟨[], [], []⟩
        ("size", PyVal.pdim ⟨"x", []⟩)
      = Except.error (nonvecMsg "size" "x" "Scatter" "plotly")) ∧
    (∃ e, ElementPlot.apply_transforms sampleCfgNV {} sampleEl sampleRanges
        [("size", PyVal.pdim ⟨"x", []⟩)] = Except.error e) ∧
    (∃ e, ElementPlot.generate_plot sampleCfgNV "k" sampleRanges 0 { params := {} }
      = Except.error e) := by
  have H := apply_transforms_nonvectorized_error sampleCfgNV {} sampleEl sampleRanges
    [("size", PyVal.pdim ⟨"x", []⟩)] { params := {} } "k" sampleRanges 0 "marker"
    "size" ⟨"x", []⟩ [DVal.num 1, DVal.num 2] rfl (by simp) rfl (fun _ => rfl) rfl
    (Or.inl (by decide)) (by decide) rfl rfl rfl rfl
  exact ⟨H.1 ⟨[], [], []⟩, H.2.1, H.2.2⟩

/-- The (range, title) content of an axis, unaffected by tick overrides. -/
def axisRangeTitle (a : Axis) : (NumVal × NumVal) × String :=
  (a.range, a.title)

theorem axisRangeTitle_get_ticks (a : Axis) (t : Option Ticker) :
    axisRangeTitle (ElementPlot.get_ticks a t) = axisRangeTitle a := by
  cases t with
  | none => rfl
  | some tk => cases tk <;> rfl

theorem get_ticks_range (a : Axis) (t : Option Ticker) :
    (ElementPlot.get_ticks a t).range = a.range := by
  cases t with
  | none => rfl
  | some tk => cases tk <;> rfl

theorem get_ticks_title (a : Axis) (t : Option Ticker) :
    (ElementPlot.get_ticks a t).title = a.title := by
  cases t with
  | none => rfl
  | some tk => cases tk <;> rfl

/-- C8: with axis inversion enabled, `init_layout` swaps the x/y labels
and the (left,bottom,right,top) extent to (bottom,left,top,right) in the
same computation: the inverted layout's x axis carries exactly the range
and title the uninverted layout's y axis carries, and vice versa — never
one swap without the other. -/
theorem init_layout_invert_atomic (cfg : EPlotCfg) (P : Params) (key : String)
    (el : Element) (ranges : Ranges) (xd yd : Dimension)
    (hx : el.dims.get? 0 = some xd) (hy : el.dims.get? 1 = some yd)
    (hlab : P.labelled.contains "x" = P.labelled.contains "y") :
    (ElementPlot.init_layout cfg { P with invert_axes := true } key el ranges).xaxis.map
        axisRangeTitle
      = (ElementPlot.init_layout cfg { P with invert_axes := false } key el
          ranges).yaxis.map axisRangeTitle ∧
    (ElementPlot.init_layout cfg { P with invert_axes := true } key el ranges).yaxis.map
        axisRangeTitle
      = (ElementPlot.init_layout cfg { P with invert_axes := false } key el
          ranges).xaxis.map axisRangeTitle := by
  cases hext : cfg.getExtents el ranges with
  | e4 l b r t =>
      constructor
      · have hmem : ("x" ∈ P.labelled) ↔ ("y" ∈ P.labelled) := by simpa using hlab
        simp only [ElementPlot.init_layout, hext, hx, hy]
        simp [get_ticks_range, get_ticks_title, axisRangeTitle]
        by_cases hm : "x" ∈ P.labelled
        · rw [if_pos hm, if_pos (hmem.mp hm)]
        · rw [if_neg hm, if_neg (fun hh => hm (hmem.mpr hh))]
      · have hmem : ("x" ∈ P.labelled) ↔ ("y" ∈ P.labelled) := by simpa using hlab
        simp only [ElementPlot.init_layout, hext, hx, hy]
        simp [get_ticks_range, get_ticks_title, axisRangeTitle]
        by_cases hm : "y" ∈ P.labelled
        · rw [if_pos hm, if_pos (hmem.mpr hm)]
        · rw [if_neg hm, if_neg (fun hh => hm (hmem.mp hh))]
  | e6 l b z0 r t z1 =>
      constructor
      · have hmem : ("x" ∈ P.labelled) ↔ ("y" ∈ P.labelled) := by simpa using hlab
        simp only [ElementPlot.init_layout, hext, hx, hy]
        simp [get_ticks_range, get_ticks_title, axisRangeTitle]
        by_cases hm : "x" ∈ P.labelled
        · rw [if_pos hm, if_pos (hmem.mp hm)]
        · rw [if_neg hm, if_neg (fun hh => hm (hmem.mpr hh))]
      · have hmem : ("x" ∈ P.labelled) ↔ ("y" ∈ P.labelled) := by simpa using hlab
        simp only [ElementPlot.init_layout, hext, hx, hy]
        simp [get_ticks_range, get_ticks_title, axisRangeTitle]
        by_cases hm : "y" ∈ P.labelled
        · rw [if_pos hm, if_pos (hmem.mpr hm)]
        · rw [if_neg hm, if_neg (fun hh => hm (hmem.mp hh))]

/-- Witness for C8 at a concrete input. -/
theorem init_layout_invert_atomic_witness :
    (ElementPlot.init_layout sampleCfg { invert_axes := true } "k" sampleEl
        sampleRanges).xaxis.map axisRangeTitle
      = (ElementPlot.init_layout sampleCfg { invert_axes := false } "k" sampleEl
          sampleRanges).yaxis.map axisRangeTitle ∧
    (ElementPlot.init_layout sampleCfg { invert_axes := true } "k" sampleEl
        sampleRanges).yaxis.map axisRangeTitle
      = (ElementPlot.init_layout sampleCfg { invert_axes := false } "k" sampleEl
          sampleRanges).xaxis.map axisRangeTitle := by
  have H := init_layout_invert_atomic sampleCfg {} "k" sampleEl sampleRanges
    ⟨"x", "x-label"⟩ ⟨"y", "y-label"⟩ rfl rfl (by decide)
  exact H

theorem eraseA_setA_comm (m : PyDict) (k k' : String) (v : PyVal) (h : k' ≠ k) :
    eraseA (setA m k' v) k = setA (eraseA m k) k' v := by
  induction m with
  | nil => simp [setA, eraseA, List.filter_cons, h]
  | cons hd tl ih =>
      by_cases h1 : hd.1 = k'
      · have hhd : ¬ hd.1 = k := by rw [h1]; exact h
        rw [setA, if_pos h1, eraseA_cons_ne (k', v) tl k h,
          eraseA_cons_ne hd tl k hhd, setA, if_pos h1]
      · rw [setA, if_neg h1]
        by_cases h2 : hd.1 = k
        · rw [eraseA_cons_self _ _ _ h2, eraseA_cons_self _ _ _ h2, ih]
        · rw [eraseA_cons_ne _ _ _ h2, eraseA_cons_ne _ _ _ h2, setA, if_neg h1, ih]

theorem eraseA_updateA_comm (other : List (String × PyVal)) (k : String)
    (h : ∀ kv ∈ other, kv.1 ≠ k) :
    ∀ m, eraseA (updateA m other) k = updateA (eraseA m k) other := by
  induction other with
  | nil => intro m; rfl
  | cons hd tl ih =>
      intro m
      have hhd : hd.1 ≠ k := h hd (by simp)
      have htl : ∀ kv ∈ tl, kv.1 ≠ k := fun kv hm => h kv (by simp [hm])
      show eraseA (updateA (setA m hd.1 hd.2) tl) k
        = updateA (setA (eraseA m k) hd.1 hd.2) tl
      rw [ih htl, eraseA_setA_comm m k hd.1 hd.2 hhd]

theorem eraseA_comm (m : PyDict) (k k' : String) :
    eraseA (eraseA m k') k = eraseA (eraseA m k) k' := by
  induction m with
  | nil => rfl
  | cons hd tl ih =>
      by_cases h1 : hd.1 = k'
      · by_cases h2 : hd.1 = k
        · rw [eraseA_cons_self _ _ _ h1, eraseA_cons_self _ _ _ h2, ih]
        · rw [eraseA_cons_self _ _ _ h1, eraseA_cons_ne _ _ _ h2,
            eraseA_cons_self _ _ _ h1, ih]
      · by_cases h2 : hd.1 = k
        · rw [eraseA_cons_ne _ _ _ h1, eraseA_cons_self _ _ _ h2,
            eraseA_cons_self _ _ _ h2, ih]
        · rw [eraseA_cons_ne _ _ _ h1, eraseA_cons_ne _ _ _ h2,
            eraseA_cons_ne _ _ _ h2, eraseA_cons_ne _ _ _ h1, ih]

/-- The keys `get_color_opts` can write into the options dict. -/
def reservedColorKeys : List String :=
  ["colorbar", "showscale", "cmin", "cmax", "cauto", "colorscale"]

theorem setA_keys (m : PyDict) (k : String) (v : PyVal) :
    ∀ kv ∈ setA m k v, kv.1 = k ∨ kv.1 ∈ m.map Prod.fst := by
  induction m with
  | nil => intro kv hm; simp [setA] at hm; simp [hm]
  | cons hd tl ih =>
      intro kv hm
      by_cases h1 : hd.1 = k
      · rw [setA, if_pos h1] at hm
        rcases List.mem_cons.mp hm with h | h
        · left; rw [h]
        · right; simp [List.mem_cons_of_mem, List.mem_map]
          exact Or.inr ⟨kv.2, by simpa using h⟩
      · rw [setA, if_neg h1] at hm
        rcases List.mem_cons.mp hm with h | h
        · right; rw [h]; simp
        · rcases ih kv h with h2 | h2
          · left; exact h2
          · right; simp at h2 ⊢; exact Or.inr h2

theorem addBound_keys (opts : PyDict) (key : String) (v : NumVal) :
    ∀ kv ∈ addBound opts key v, kv.1 = key ∨ kv.1 ∈ opts.map Prod.fst := by
  intro kv hm
  cases v with
  | none =>
      right
      have hin : kv ∈ opts := by simpa [addBound] using hm
      exact List.mem_map_of_mem Prod.fst hin
  | num q => exact setA_keys _ _ _ kv (by simpa [addBound] using hm)
  | nan => exact setA_keys _ _ _ kv (by simpa [addBound] using hm)

theorem gco_fst_keys (P : Params) (e : Eldim) (el : Element) (r : Ranges)
    (si : PyDict) :
    ∀ kv ∈ (ColorbarPlot.get_color_opts P e el r si).1,
      kv.1 ∈ reservedColorKeys := by
  intro kv hm
  simp only [ColorbarPlot.get_color_opts] at hm
  rcases setA_keys _ _ _ kv hm with h | h
  · simp [reservedColorKeys, h]
  · simp only [List.mem_map] at h
    obtain ⟨kv2, hkv2, hfst⟩ := h
    rcases setA_keys _ _ _ kv2 hkv2 with h2 | h2
    · simp [reservedColorKeys, ← hfst, h2]
    · simp only [List.mem_map] at h2
      obtain ⟨kv3, hkv3, hfst3⟩ := h2
      rcases addBound_keys _ _ _ kv3 hkv3 with h3 | h3
      · simp [reservedColorKeys, ← hfst, ← hfst3, h3]
      · simp only [List.mem_map] at h3
        obtain ⟨kv4, hkv4, hfst4⟩ := h3
        rcases addBound_keys _ _ _ kv4 hkv4 with h4 | h4
        · simp [reservedColorKeys, ← hfst, ← hfst3, ← hfst4, h4]
        · simp only [List.mem_map] at h4
          obtain ⟨kv5, hkv5, hfst5⟩ := h4
          by_cases hc : P.colorbar = true
          · rw [if_pos hc] at hkv5
            simp at hkv5
            simp [reservedColorKeys, ← hfst, ← hfst3, ← hfst4, ← hfst5, hkv5]
          · rw [if_neg hc] at hkv5
            simp at hkv5
            simp [reservedColorKeys, ← hfst, ← hfst3, ← hfst4, ← hfst5, hkv5]

theorem gco_fst_congr (P : Params) (e : Eldim) (el : Element) (r : Ranges)
    (si1 si2 : PyDict) (h : lookupA si1 "cmap" = lookupA si2 "cmap") :
    (ColorbarPlot.get_color_opts P e el r si1).1
      = (ColorbarPlot.get_color_opts P e el r si2).1 := by
  simp only [ColorbarPlot.get_color_opts, h]

theorem gco_snd (P : Params) (e : Eldim) (el : Element) (r : Ranges)
    (si : PyDict) :
    (ColorbarPlot.get_color_opts P e el r si).2 = eraseA si "cmap" := rfl

theorem atStep_styleIn (cfg : EPlotCfg) (P : Params) (el : Element)
    (ranges : Ranges) (s : ATState) (kv : String × PyVal) (s2 : ATState)
    (h : ElementPlot.applyTransformStep cfg P el ranges s kv = Except.ok s2) :
    s2.styleIn = s.styleIn ∨ s2.styleIn = eraseA s.styleIn "cmap" := by
  simp only [ElementPlot.applyTransformStep] at h
  split at h
  case h_2 => cases h; exact Or.inl rfl
  case h_1 t =>
    split at h
    · cases h; exact Or.inl rfl
    · split at h
      · exact Except.noConfusion h
      · split at h
        · cases h
          exact Or.inr (by rw [gco_snd])
        · cases h
          exact Or.inl rfl

/-- C2 amended: resolving transforms never replaces the input style dict
wholesale; on success it is either untouched or differs exactly by the
removal of the 'cmap' entry (popped by `get_color_opts`). -/
theorem apply_transforms_styleIn (cfg : EPlotCfg) (P : Params) (el : Element)
    (ranges : Ranges) (style : PyDict) (st2 : ATState)
    (h : ElementPlot.apply_transforms cfg P el ranges style = Except.ok st2) :
    st2.styleIn = style ∨ st2.styleIn = eraseA style "cmap" := by
  have main : ∀ (l : List (String × PyVal)) (s : ATState),
      (s.styleIn = style ∨ s.styleIn = eraseA style "cmap") →
      ∀ s2, List.foldlM (ElementPlot.applyTransformStep cfg P el ranges) s l
          = Except.ok s2 →
      s2.styleIn = style ∨ s2.styleIn = eraseA style "cmap" := by
    intro l
    induction l with
    | nil =>
        intro s hs s2 h2
        cases h2
        exact hs
    | cons hd tl ih =>
        intro s hs s2 h2
        rw [List.foldlM_cons] at h2
        cases hstep : ElementPlot.applyTransformStep cfg P el ranges s hd with
        | error e =>
            rw [hstep] at h2
            exact Except.noConfusion h2
        | ok s1 =>
            rw [hstep] at h2
            rcases atStep_styleIn cfg P el ranges s hd s1 hstep with h1 | h1
            · exact ih s1 (h1 ▸ hs) s2 h2
            · rcases hs with hs | hs
              · exact ih s1 (by rw [h1, hs]; exact Or.inr rfl) s2 h2
              · exact ih s1 (by rw [h1, hs]; exact Or.inr (eraseA_eraseA _ _)) s2 h2
  exact main style ⟨style, style, []⟩ (Or.inl rfl) st2 h

/-- A style dict that maps "color" to a dim transform and also carries an
explicit "cmap" entry. -/
def cexStyle : PyDict :=
  [("color", PyVal.pdim ⟨"x", []⟩), ("cmap", PyVal.pstr "jet")]

/-- C2 counterexample: resolving `cexStyle` pops 'cmap' from the style
dict passed in — the mapping is not equal before and after resolution, so
resolution does mutate its style input. -/
theorem apply_transforms_mutates_style_cex :
    (ElementPlot.apply_transforms sampleCfg {} sampleEl sampleRanges
        cexStyle).toOption.map ATState.styleIn ≠ some cexStyle := by
  intro h
  have hev : (ElementPlot.apply_transforms sampleCfg {} sampleEl sampleRanges
      cexStyle).toOption.map ATState.styleIn
      = some [("color", PyVal.pdim ⟨"x", []⟩)] := rfl
  rw [hev] at h
  have hlen := congrArg (fun o => (o.getD []).length) h
  simp [cexStyle] at hlen

/-- Witness for the amended C2 at a concrete input (the 'cmap' entry is
removed, everything else is untouched). -/
theorem apply_transforms_styleIn_witness :
    ∃ st2, ElementPlot.apply_transforms sampleCfg {} sampleEl sampleRanges
        cexStyle = Except.ok st2 ∧
      (st2.styleIn = cexStyle ∨ st2.styleIn = eraseA cexStyle "cmap") := by
  refine ⟨_, rfl, ?_⟩
  exact apply_transforms_styleIn sampleCfg {} sampleEl sampleRanges cexStyle _ rfl

theorem lookupA_updateA_ne (k : String) (other : List (String × PyVal))
    (h : ∀ kv ∈ other, kv.1 ≠ k) :
    ∀ m, lookupA (updateA m other) k = lookupA m k := by
  induction other with
  | nil => intro m; rfl
  | cons hd tl ih =>
      intro m
      show lookupA (updateA (setA m hd.1 hd.2) tl) k = lookupA m k
      rw [ih (fun kv hm => h kv (by simp [hm])),
        lookupA_setA_ne m hd.1 k hd.2 (Ne.symm (h hd (by simp)))]

theorem eraseA_append (l1 l2 : PyDict) (k : String) :
    eraseA (l1 ++ l2) k = eraseA l1 k ++ eraseA l2 k := by
  simp [eraseA, List.filter_append]

theorem eraseA_eq_self (l : PyDict) (k : String) (h : ∀ kv ∈ l, kv.1 ≠ k) :
    eraseA l k = l := by
  induction l with
  | nil => rfl
  | cons hd tl ih =>
      rw [eraseA_cons_ne hd tl k (h hd (by simp)),
        ih (fun kv hm => h kv (by simp [hm]))]

/-- The non-applicable branch of the per-entry step (source lines
219-223): drop the key and warn. -/
theorem atStep_drop (cfg : EPlotCfg) (P : Params) (el : Element)
    (ranges : Ranges) (s : ATState) (k : String) (v : PyVal) (t : DimT)
    (hcv : coerceStyleVal cfg el v = PyVal.pdim t)
    (hna : t.applies el = false) (hno : ovHas cfg t.dimension = false) :
    ElementPlot.applyTransformStep cfg P el ranges s (k, v)
      = Except.ok ⟨eraseA s.newStyle k, s.styleIn, s.warnings ++ [warnMsg k t]⟩ := by
  simp only [ElementPlot.applyTransformStep, hcv]
  simp [hna, hno]

/-- A successful step on an entry whose key differs from `k` (with `k`
neither 'cmap' nor a color-options key) leaves the resolved value of `k`
untouched. -/
theorem atStep_preserves_k (cfg : EPlotCfg) (P : Params) (el : Element)
    (ranges : Ranges) (k : String)
    (hkc : k ≠ "cmap") (hkr : ∀ rk ∈ reservedColorKeys, rk ≠ k)
    (kv : String × PyVal) (hkv : k ≠ kv.1)
    (s s2 : ATState)
    (h : ElementPlot.applyTransformStep cfg P el ranges s kv = Except.ok s2) :
    lookupA s2.newStyle k = lookupA s.newStyle k := by
  simp only [ElementPlot.applyTransformStep] at h
  split at h
  case h_2 => cases h; rfl
  case h_1 t =>
    split at h
    · cases h
      exact lookupA_eraseA_ne _ _ _ hkv
    · split at h
      · exact Except.noConfusion h
      · split at h
        · cases h
          show lookupA (setA (updateA (eraseA s.newStyle "cmap") _) kv.1 _) k
            = lookupA s.newStyle k
          rw [lookupA_setA_ne _ _ _ _ hkv,
            lookupA_updateA_ne k _ (fun kv2 hm => hkr _ (gco_fst_keys _ _ _ _ _ kv2 hm)),
            lookupA_eraseA_ne _ _ _ hkc]
        · cases h
          exact lookupA_setA_ne _ _ _ _ hkv

theorem fold_preserves_k (cfg : EPlotCfg) (P : Params) (el : Element)
    (ranges : Ranges) (k : String)
    (hkc : k ≠ "cmap") (hkr : ∀ rk ∈ reservedColorKeys, rk ≠ k)
    (es : List (String × PyVal)) (hes : ∀ kv ∈ es, k ≠ kv.1) :
    ∀ s s2, List.foldlM (ElementPlot.applyTransformStep cfg P el ranges) s es
        = Except.ok s2 →
      lookupA s2.newStyle k = lookupA s.newStyle k := by
  induction es with
  | nil =>
      intro s s2 h
      cases h
      rfl
  | cons hd tl ih =>
      intro s s2 h
      rw [List.foldlM_cons] at h
      cases hstep : ElementPlot.applyTransformStep cfg P el ranges s hd with
      | error e => rw [hstep] at h; exact Except.noConfusion h
      | ok sm =>
          rw [hstep] at h
          rw [ih (fun kv hm => hes kv (by simp [hm])) sm s2 h,
            atStep_preserves_k cfg P el ranges k hkc hkr hd (hes hd (by simp)) s sm hstep]

/-- Lockstep behaviour of the per-entry step on a run and on the same run
with key `k` erased everywhere: both fail with the same error or both
succeed, preserving the erase relation and emitting the same warnings. -/
theorem atStep_pair (cfg : EPlotCfg) (P : Params) (el : Element)
    (ranges : Ranges) (k : String)
    (hkc : k ≠ "cmap") (hkr : ∀ rk ∈ reservedColorKeys, rk ≠ k)
    (kv : String × PyVal) (hkv : kv.1 ≠ k)
    (s1 s2 : ATState)
    (hns : s2.newStyle = eraseA s1.newStyle k)
    (hsi : s2.styleIn = eraseA s1.styleIn k) :
    (∃ e, ElementPlot.applyTransformStep cfg P el ranges s1 kv = Except.error e ∧
          ElementPlot.applyTransformStep cfg P el ranges s2 kv = Except.error e) ∨
    (∃ s1' s2' w,
       ElementPlot.applyTransformStep cfg P el ranges s1 kv = Except.ok s1' ∧
       ElementPlot.applyTransformStep cfg P el ranges s2 kv = Except.ok s2' ∧
       s2'.newStyle = eraseA s1'.newStyle k ∧
       s2'.styleIn = eraseA s1'.styleIn k ∧
       s1'.warnings = s1.warnings ++ w ∧ s2'.warnings = s2.warnings ++ w) := by
  cases hcv : coerceStyleVal cfg el kv.2
  case pdim t =>
    by_cases ha : (¬ t.applies el = true ∧ ¬ ovHas cfg t.dimension = true)
    · right
      refine ⟨⟨eraseA s1.newStyle kv.1, s1.styleIn, s1.warnings ++ [warnMsg kv.1 t]⟩,
        ⟨eraseA s2.newStyle kv.1, s2.styleIn, s2.warnings ++ [warnMsg kv.1 t]⟩,
        [warnMsg kv.1 t], ?_, ?_, ?_, hsi, rfl, rfl⟩
      · simp only [ElementPlot.applyTransformStep, hcv]
        rw [if_pos ha]
      · simp only [ElementPlot.applyTransformStep, hcv]
        rw [if_pos ha]
      · show eraseA s2.newStyle kv.1 = eraseA (eraseA s1.newStyle kv.1) k
        rw [hns, eraseA_comm]
    · by_cases hg : (¬ isscalar (collapseVal kv.1 (evalVal cfg el t)) = true
          ∧ cfg.nonvectorized.contains kv.1 = true)
      · left
        refine ⟨nonvecMsg kv.1 t.dimension el.typeName cfg.backend, ?_, ?_⟩
        · simp only [ElementPlot.applyTransformStep, hcv]
          rw [if_neg ha, if_pos hg]
        · simp only [ElementPlot.applyTransformStep, hcv]
          rw [if_neg ha, if_pos hg]
      · by_cases hcl : (strContains kv.1 "color" = true
            ∧ isArr (collapseVal kv.1 (evalVal cfg el t)) = true
            ∧ isNumericArr (collapseVal kv.1 (evalVal cfg el t)) = true)
        · right
          have hcmap : lookupA s2.styleIn "cmap" = lookupA s1.styleIn "cmap" := by
            rw [hsi, lookupA_eraseA_ne _ _ _ (Ne.symm hkc)]
          have hco : (ColorbarPlot.get_color_opts P (.dt t) el ranges s2.styleIn).1
              = (ColorbarPlot.get_color_opts P (.dt t) el ranges s1.styleIn).1 :=
            gco_fst_congr P (.dt t) el ranges s2.styleIn s1.styleIn hcmap
          have hker : ∀ kv2 ∈ (ColorbarPlot.get_color_opts P (.dt t) el ranges
              s1.styleIn).1, kv2.1 ≠ k :=
            fun kv2 hm => hkr _ (gco_fst_keys _ _ _ _ _ kv2 hm)
          refine ⟨⟨setA (updateA (eraseA s1.newStyle "cmap")
              (ColorbarPlot.get_color_opts P (.dt t) el ranges s1.styleIn).1) kv.1
              (collapseVal kv.1 (evalVal cfg el t)),
              eraseA s1.styleIn "cmap", s1.warnings⟩,
            ⟨setA (updateA (eraseA s2.newStyle "cmap")
              (ColorbarPlot.get_color_opts P (.dt t) el ranges s2.styleIn).1) kv.1
              (collapseVal kv.1 (evalVal cfg el t)),
              eraseA s2.styleIn "cmap", s2.warnings⟩,
            [], ?_, ?_, ?_, ?_, (List.append_nil _).symm, (List.append_nil _).symm⟩
          · simp only [ElementPlot.applyTransformStep, hcv]
            rw [if_neg ha, if_neg hg, if_pos hcl, gco_snd]
          · simp only [ElementPlot.applyTransformStep, hcv]
            rw [if_neg ha, if_neg hg, if_pos hcl, gco_snd]
          · show setA (updateA (eraseA s2.newStyle "cmap") _) kv.1 _
              = eraseA (setA (updateA (eraseA s1.newStyle "cmap") _) kv.1 _) k
            rw [eraseA_setA_comm _ _ _ _ hkv, eraseA_updateA_comm _ k hker,
              eraseA_comm, hco, hns]
          · show eraseA s2.styleIn "cmap" = eraseA (eraseA s1.styleIn "cmap") k
            rw [hsi, eraseA_comm]
        · right
          refine ⟨⟨setA s1.newStyle kv.1 (collapseVal kv.1 (evalVal cfg el t)),
              s1.styleIn, s1.warnings⟩,
            ⟨setA s2.newStyle kv.1 (collapseVal kv.1 (evalVal cfg el t)),
              s2.styleIn, s2.warnings⟩,
            [], ?_, ?_, ?_, hsi, (List.append_nil _).symm, (List.append_nil _).symm⟩
          · simp only [ElementPlot.applyTransformStep, hcv]
            rw [if_neg ha, if_neg hg, if_neg hcl]
          · simp only [ElementPlot.applyTransformStep, hcv]
            rw [if_neg ha, if_neg hg, if_neg hcl]
          · show setA s2.newStyle kv.1 _ = eraseA (setA s1.newStyle kv.1 _) k
            rw [eraseA_setA_comm _ _ _ _ hkv, hns]
  all_goals
    right
    refine ⟨s1, s2, [], ?_, ?_, hns, hsi,
      (List.append_nil _).symm, (List.append_nil _).symm⟩
    · simp only [ElementPlot.applyTransformStep, hcv]
    · simp only [ElementPlot.applyTransformStep, hcv]

/-- `atStep_pair` lifted to the whole fold. -/
theorem fold_pair (cfg : EPlotCfg) (P : Params) (el : Element) (ranges : Ranges)
    (k : String) (hkc : k ≠ "cmap") (hkr : ∀ rk ∈ reservedColorKeys, rk ≠ k)
    (es : List (String × PyVal)) :
    (∀ kv ∈ es, kv.1 ≠ k) →
    ∀ s1 s2, s2.newStyle = eraseA s1.newStyle k → s2.styleIn = eraseA s1.styleIn k →
    (∃ e, List.foldlM (ElementPlot.applyTransformStep cfg P el ranges) s1 es
          = Except.error e ∧
        List.foldlM (ElementPlot.applyTransformStep cfg P el ranges) s2 es
          = Except.error e) ∨
    (∃ s1' s2' w,
       List.foldlM (ElementPlot.applyTransformStep cfg P el ranges) s1 es
         = Except.ok s1' ∧
       List.foldlM (ElementPlot.applyTransformStep cfg P el ranges) s2 es
         = Except.ok s2' ∧
       s2'.newStyle = eraseA s1'.newStyle k ∧
       s2'.styleIn = eraseA s1'.styleIn k ∧
       s1'.warnings = s1.warnings ++ w ∧ s2'.warnings = s2.warnings ++ w) := by
  induction es with
  | nil =>
      intro _ s1 s2 hns hsi
      right
      exact ⟨s1, s2, [], rfl, rfl, hns, hsi,
        (List.append_nil _).symm, (List.append_nil _).symm⟩
  | cons hd tl ih =>
      intro hes s1 s2 hns hsi
      rcases atStep_pair cfg P el ranges k hkc hkr hd (hes hd (by simp)) s1 s2 hns hsi
        with ⟨e, he1, he2⟩ | ⟨s1m, s2m, w1, h1, h2, hr1, hr2, hw1, hw2⟩
      · left
        refine ⟨e, ?_, ?_⟩
        · rw [List.foldlM_cons, he1]; rfl
        · rw [List.foldlM_cons, he2]; rfl
      · rcases ih (fun kv hm => hes kv (by simp [hm])) s1m s2m hr1 hr2
          with ⟨e, he1, he2⟩ | ⟨s1f, s2f, w2, hf1, hf2, hrf1, hrf2, hwf1, hwf2⟩
        · left
          refine ⟨e, ?_, ?_⟩
          · rw [List.foldlM_cons, h1]; exact he1
          · rw [List.foldlM_cons, h2]; exact he2
        · right
          refine ⟨s1f, s2f, w1 ++ w2, ?_, ?_, hrf1, hrf2, ?_, ?_⟩
          · rw [List.foldlM_cons, h1]; exact hf1
          · rw [List.foldlM_cons, h2]; exact hf2
          · rw [hwf1, hw1, List.append_assoc]
          · rw [hwf2, hw2, List.append_assoc]

/-- C5: a style entry whose value is (or coerces to) a dim transform that
neither applies to the element nor is overlay-bound is dropped from the
result with a non-fatal warning naming the attribute and the transform;
no exception is raised and every other attribute resolves exactly as it
would had the bad entry not been present. -/
theorem apply_transforms_drops_inapplicable (cfg : EPlotCfg) (P : Params)
    (el : Element) (ranges : Ranges) (pre post : List (String × PyVal))
    (k : String) (v : PyVal) (t : DimT)
    (hcv : coerceStyleVal cfg el v = PyVal.pdim t)
    (hna : t.applies el = false)
    (hno : ovHas cfg t.dimension = false)
    (hkc : k ≠ "cmap") (hkr : ∀ rk ∈ reservedColorKeys, rk ≠ k)
    (hpre : ∀ kv ∈ pre, kv.1 ≠ k) (hpost : ∀ kv ∈ post, kv.1 ≠ k)
    (st2 : ATState)
    (h2 : ElementPlot.apply_transforms cfg P el ranges (pre ++ post)
      = Except.ok st2) :
    ∃ st1, ElementPlot.apply_transforms cfg P el ranges (pre ++ (k, v) :: post)
        = Except.ok st1 ∧
      lookupA st1.newStyle k = Option.none ∧
      warnMsg k t ∈ st1.warnings ∧
      (∀ q, q ≠ k → lookupA st1.newStyle q = lookupA st2.newStyle q) := by
  have herase : eraseA (pre ++ (k, v) :: post) k = pre ++ post := by
    rw [eraseA_append, eraseA_cons_self (k, v) post k rfl,
      eraseA_eq_self pre k hpre, eraseA_eq_self post k hpost]
  rw [ElementPlot.apply_transforms, List.foldlM_append] at h2
  cases hpre2 : List.foldlM (ElementPlot.applyTransformStep cfg P el ranges)
      ⟨pre ++ post, pre ++ post, []⟩ pre with
  | error e =>
      rw [hpre2] at h2
      exact Except.noConfusion h2
  | ok s2p =>
      rw [hpre2] at h2
      replace h2 : List.foldlM (ElementPlot.applyTransformStep cfg P el ranges)
          s2p post = Except.ok st2 := h2
      rcases fold_pair cfg P el ranges k hkc hkr pre hpre
          ⟨pre ++ (k, v) :: post, pre ++ (k, v) :: post, []⟩
          ⟨pre ++ post, pre ++ post, []⟩
          (by show pre ++ post = eraseA (pre ++ (k, v) :: post) k; rw [herase])
          (by show pre ++ post = eraseA (pre ++ (k, v) :: post) k; rw [herase])
        with ⟨e, he1, he2⟩ | ⟨s1p, s2p', w1, hp1, hp2, hr1, hr2, hw1, hw2⟩
      · rw [hpre2] at he2
        exact Except.noConfusion he2
      · have hs2p : s2p' = s2p := Except.ok.inj (hp2.symm.trans hpre2)
        rw [hs2p] at hr1 hr2
        have hstep1 := atStep_drop cfg P el ranges s1p k v t hcv hna hno
        have hnsb : s2p.newStyle
            = eraseA (⟨eraseA s1p.newStyle k, s1p.styleIn,
                s1p.warnings ++ [warnMsg k t]⟩ : ATState).newStyle k := by
          show s2p.newStyle = eraseA (eraseA s1p.newStyle k) k
          rw [eraseA_eraseA]
          exact hr1
        have hsib : s2p.styleIn
            = eraseA (⟨eraseA s1p.newStyle k, s1p.styleIn,
                s1p.warnings ++ [warnMsg k t]⟩ : ATState).styleIn k := hr2
        rcases fold_pair cfg P el ranges k hkc hkr post hpost
            ⟨eraseA s1p.newStyle k, s1p.styleIn, s1p.warnings ++ [warnMsg k t]⟩
            s2p hnsb hsib
          with ⟨e, he1, he2⟩ | ⟨s1f, s2f, w2, hf1, hf2, hrf1, hrf2, hwf1, hwf2⟩
        · rw [h2] at he2
          exact Except.noConfusion he2
        · have hs2f : s2f = st2 := Except.ok.inj (hf2.symm.trans h2)
          rw [hs2f] at hrf1 hrf2
          refine ⟨s1f, ?_, ?_, ?_, ?_⟩
          · show List.foldlM (ElementPlot.applyTransformStep cfg P el ranges)
              ⟨pre ++ (k, v) :: post, pre ++ (k, v) :: post, []⟩
              (pre ++ (k, v) :: post) = Except.ok s1f
            rw [List.foldlM_append, hp1]
            show List.foldlM (ElementPlot.applyTransformStep cfg P el ranges)
              s1p ((k, v) :: post) = Except.ok s1f
            rw [List.foldlM_cons, hstep1]
            exact hf1
          · rw [fold_preserves_k cfg P el ranges k hkc hkr post
              (fun kv hm => Ne.symm (hpost kv hm)) _ s1f hf1]
            exact lookupA_eraseA_self _ _
          · rw [hwf1]
            show warnMsg k t ∈ (s1p.warnings ++ [warnMsg k t]) ++ w2
            simp
          · intro q hq
            rw [← lookupA_eraseA_ne s1f.newStyle k q hq, ← hrf1]

/-- Witness for C5 at a concrete input: "alpha" mapped to the missing
dimension "missing" is dropped with a warning while "size" still resolves
to the collapsed scalar 5. -/
theorem apply_transforms_drops_inapplicable_witness :
    ∃ st1, ElementPlot.apply_transforms sampleCfg {} sampleEl sampleRanges
        ([("size", PyVal.pstr "size")] ++ ("alpha", PyVal.pdim ⟨"missing", []⟩) :: [])
        = Except.ok st1 ∧
      lookupA st1.newStyle "alpha" = Option.none ∧
      warnMsg "alpha" ⟨"missing", []⟩ ∈ st1.warnings ∧
      (∀ q, q ≠ "alpha" → lookupA st1.newStyle q
        = lookupA (⟨[("size", PyVal.pnum 5)], [("size", PyVal.pstr "size")],
            []⟩ : ATState).newStyle q) :=
  apply_transforms_drops_inapplicable sampleCfg {} sampleEl sampleRanges
    [("size", PyVal.pstr "size")] [] "alpha" (PyVal.pdim ⟨"missing", []⟩)
    ⟨"missing", []⟩ rfl rfl rfl (by decide) (by decide) (by decide) (by decide)
    ⟨[("size", PyVal.pnum 5)], [("size", PyVal.pstr "size")], []⟩ rfl

theorem exc_bind_ok {α β : Type} (a : α) (f : α → Except String β) :
    (Except.ok a >>= f) = f a := rfl

/-- C1: `generate_plot` keeps no hidden state besides the externally
supplied cyclic index — a second call with identical inputs from the
state the first call produced returns the very same state, figure and
warnings (bit-identical resolved style and figure). -/
theorem generate_plot_idempotent (cfg : EPlotCfg) (key : String) (ranges : Ranges)
    (ci : ℕ) (st st1 : EPlotState) (fig : Figure) (w : List String)
    (h : ElementPlot.generate_plot cfg key ranges ci st = Except.ok (st1, fig, w)) :
    ElementPlot.generate_plot cfg key ranges ci st1 = Except.ok (st1, fig, w) := by
  cases hframe : cfg.getFrame key with
  | none =>
      simp only [ElementPlot.generate_plot, hframe] at h ⊢
      cases hfig : st.handles_fig with
      | none =>
          rw [hfig] at h
          exact Except.noConfusion h
      | some f =>
          rw [hfig] at h
          cases h
          rw [hfig]
  | some el =>
      simp only [ElementPlot.generate_plot, hframe] at h ⊢
      cases hgo : ElementPlot.graph_options cfg
          (applyUpdates (cfg.plotOpts el) st.params) el
          (cfg.matchSpec el (cfg.computeRanges key ranges))
          (cfg.styleOf el ci) with
      | error e =>
          rw [hgo] at h
          exact Except.noConfusion h
      | ok go =>
          rw [hgo, exc_bind_ok] at h
          cases hgr : List.foldlM
              (fun (acc : List PyDict × PyDict) (pr : ℕ × PyDict) => do
                let g ← ElementPlot.init_graph pr.2 acc.2 pr.1 cfg.styleKey cfg.perTrace
                Except.ok (acc.1 ++ [g.1], g.2))
              ([], go.1)
              ((cfg.getData el (cfg.matchSpec el (cfg.computeRanges key ranges))
                (cfg.styleOf el ci)).enum) with
          | error e =>
              rw [hgr] at h
              exact Except.noConfusion h
          | ok gr =>
              rw [hgr, exc_bind_ok] at h
              cases h
              dsimp only
              rw [applyUpdates_idem, hgo, exc_bind_ok, hgr, exc_bind_ok]

/-- Witness for C1 at a concrete input. -/
theorem generate_plot_idempotent_witness :
    ∃ st1 fig w,
      ElementPlot.generate_plot sampleCfg "k" sampleRanges 0 { params := {} }
        = Except.ok (st1, fig, w) ∧
      ElementPlot.generate_plot sampleCfg "k" sampleRanges 0 st1
        = Except.ok (st1, fig, w) := by
  obtain ⟨st1, fig, w, h⟩ :
      ∃ st1 fig w, ElementPlot.generate_plot sampleCfg "k" sampleRanges 0
        { params := {} } = Except.ok (st1, fig, w) := ⟨_, _, _, rfl⟩
  exact ⟨st1, fig, w, h,
    generate_plot_idempotent sampleCfg "k" sampleRanges 0 { params := {} } st1 fig w h⟩

theorem overlayStep_ok (key : String) (R : Ranges) (sts0 : List SubPlot)
    (accFig : Option Figure) (sp : SubPlot) (r : EPlotState × Figure × List String)
    (hgen : ElementPlot.generate_plot sp.cfg key R sp.cyclicIndex sp.st
      = Except.ok r) :
    overlayStep key R (sts0, accFig) sp
      = Except.ok (sts0 ++ [{ sp with st := r.1 }],
          some (match accFig with
                | Option.none => r.2.1
                | some f => merge_figure f r.2.1)) := by
  simp only [overlayStep, hgen, exc_bind_ok]

/-- The overlay's child loop, started from a seeded figure, appends every
remaining child's traces in order. -/
theorem overlay_fold_data (key : String) (R : Ranges) :
    ∀ (subs : List SubPlot) (figs : List Figure),
      subs.mapM (fun sp => (ElementPlot.generate_plot sp.cfg key R
          sp.cyclicIndex sp.st).map (fun r => r.2.1)) = Except.ok figs →
      ∀ (sts0 : List SubPlot) (f0 : Figure),
      ∃ sts' f', List.foldlM (overlayStep key R) (sts0, some f0) subs
          = Except.ok (sts', some f') ∧
        f'.data = f0.data ++ (figs.map Figure.data).join := by
  intro subs
  induction subs with
  | nil =>
      intro figs hm sts0 f0
      cases hm
      exact ⟨sts0, f0, rfl, by simp⟩
  | cons sp rest ih =>
      intro figs hm sts0 f0
      rw [List.mapM_cons] at hm
      cases hcf : (ElementPlot.generate_plot sp.cfg key R sp.cyclicIndex sp.st).map
          (fun r => r.2.1) with
      | error e =>
          rw [hcf] at hm
          exact Except.noConfusion hm
      | ok f1 =>
          rw [hcf] at hm
          rw [exc_bind_ok] at hm
          cases hrest : rest.mapM (fun sp => (ElementPlot.generate_plot sp.cfg key R
              sp.cyclicIndex sp.st).map (fun r => r.2.1)) with
          | error e =>
              rw [hrest] at hm
              exact Except.noConfusion hm
          | ok fr =>
              rw [hrest, exc_bind_ok] at hm
              cases hm
              cases hgen : ElementPlot.generate_plot sp.cfg key R sp.cyclicIndex
                  sp.st with
              | error e =>
                  rw [hgen] at hcf
                  exact Except.noConfusion hcf
              | ok r =>
                  rw [hgen] at hcf
                  have hf1 : f1 = r.2.1 := (Except.ok.inj hcf).symm
                  subst hf1
                  rw [List.foldlM_cons,
                    overlayStep_ok key R sts0 (some f0) sp r hgen, exc_bind_ok]
                  obtain ⟨sts', f', hfold, hdata⟩ :=
                    ih fr hrest (sts0 ++ [{ sp with st := r.1 }])
                      (merge_figure f0 r.2.1)
                  refine ⟨sts', f', hfold, ?_⟩
                  rw [hdata]
                  show (merge_figure f0 r.2.1).data ++ _ = _
                  simp [merge_figure]

/-- C9: the overlay's combined figure's trace list is exactly the
concatenation of the children's trace lists in iteration order — the
first child's figure seeds the list and each later child's traces are
appended. -/
theorem overlay_trace_concat (ocfg : EPlotCfg) (oP : Params) (key : String)
    (ranges : Ranges) (subs : List SubPlot) (el : Element) (figs : List Figure)
    (hframe : ocfg.getFrame key = some el)
    (hc : subs.mapM (fun sp => (ElementPlot.generate_plot sp.cfg key
        (ocfg.computeRanges key ranges) sp.cyclicIndex sp.st).map
        (fun r => r.2.1)) = Except.ok figs)
    (hne : subs ≠ []) :
    ∃ sts fig, OverlayPlot.generate_plot ocfg oP key ranges subs
        = Except.ok (sts, fig) ∧
      fig.data = (figs.map Figure.data).join := by
  cases subs with
  | nil => exact absurd rfl hne
  | cons sp rest =>
      rw [List.mapM_cons] at hc
      cases hcf : (ElementPlot.generate_plot sp.cfg key
          (ocfg.computeRanges key ranges) sp.cyclicIndex sp.st).map
          (fun r => r.2.1) with
      | error e =>
          rw [hcf] at hc
          exact Except.noConfusion hc
      | ok f1 =>
          rw [hcf, exc_bind_ok] at hc
          cases hrest : rest.mapM (fun sp => (ElementPlot.generate_plot sp.cfg key
              (ocfg.computeRanges key ranges) sp.cyclicIndex sp.st).map
              (fun r => r.2.1)) with
          | error e =>
              rw [hrest] at hc
              exact Except.noConfusion hc
          | ok fr =>
              rw [hrest, exc_bind_ok] at hc
              cases hc
              cases hgen : ElementPlot.generate_plot sp.cfg key
                  (ocfg.computeRanges key ranges) sp.cyclicIndex sp.st with
              | error e =>
                  rw [hgen] at hcf
                  exact Except.noConfusion hcf
              | ok r =>
                  rw [hgen] at hcf
                  have hf1 : f1 = r.2.1 := (Except.ok.inj hcf).symm
                  subst hf1
                  obtain ⟨sts', f', hfold, hdata⟩ :=
                    overlay_fold_data key (ocfg.computeRanges key ranges) rest fr
                      hrest [{ sp with st := r.1 }] r.2.1
                  refine ⟨sts', ⟨f'.data, layoutUpdate f'.layout (ElementPlot.init_layout ocfg oP key el (ocfg.computeRanges key ranges))⟩, ?_, ?_⟩
                  · simp only [OverlayPlot.generate_plot]
                    rw [List.foldlM_cons,
                      overlayStep_ok _ _ [] Option.none sp r hgen, exc_bind_ok]
                    dsimp only
                    simp only [List.nil_append]
                    rw [hfold, exc_bind_ok, hframe]
                  · show f'.data = _
                    rw [hdata]
                    simp

/-- An overlay child producing one trace with x-data [1]. -/
def cfgA : EPlotCfg :=
  { sampleCfg with getData := fun _ _ _ => [[("x", PyVal.parr [DVal.num 1])]] }

/-- An overlay child producing one trace with x-data [2]. -/
def cfgB : EPlotCfg :=
  { sampleCfg with getData := fun _ _ _ => [[("x", PyVal.parr [DVal.num 2])]] }

/-- Witness for C9 at a concrete input: a two-child overlay concatenates
the children's trace lists in order. -/
theorem overlay_trace_concat_witness :
    ∃ sts fig figs,
      (([⟨cfgA, 0, { params := {} }⟩, ⟨cfgB, 0, { params := {} }⟩] :
          List SubPlot).mapM
        (fun sp => (ElementPlot.generate_plot sp.cfg "k"
          (sampleCfg.computeRanges "k" sampleRanges) sp.cyclicIndex sp.st).map
          (fun r => r.2.1)) = Except.ok figs) ∧
      OverlayPlot.generate_plot sampleCfg {} "k" sampleRanges
        [⟨cfgA, 0, { params := {} }⟩, ⟨cfgB, 0, { params := {} }⟩]
        = Except.ok (sts, fig) ∧
      fig.data = (figs.map Figure.data).join := by
  obtain ⟨figs, hfigs⟩ :
      ∃ figs, (([⟨cfgA, 0, { params := {} }⟩, ⟨cfgB, 0, { params := {} }⟩] :
          List SubPlot).mapM
        (fun sp => (ElementPlot.generate_plot sp.cfg "k"
          (sampleCfg.computeRanges "k" sampleRanges) sp.cyclicIndex sp.st).map
          (fun r => r.2.1)) = Except.ok figs) := ⟨_, rfl⟩
  obtain ⟨sts, fig, h1, h2⟩ := overlay_trace_concat sampleCfg {} "k" sampleRanges
    [⟨cfgA, 0, { params := {} }⟩, ⟨cfgB, 0, { params := {} }⟩] sampleEl figs rfl
    hfigs (by simp)
  exact ⟨sts, fig, figs, hfigs, h1, h2⟩

theorem graphMergeStep_preserves (k : String) (kv : String × PyVal)
    (hk : kv.1 ≠ k) (acc acc2 : PyDict × PyDict)
    (h : graphMergeStep acc kv = Except.ok acc2) :
    lookupA acc2.1 k = lookupA acc.1 k ∧ lookupA acc2.2 k = lookupA acc.2 k := by
  simp only [graphMergeStep] at h
  split at h
  · split at h
    · cases h
      exact ⟨lookupA_setA_ne _ _ _ _ (Ne.symm hk), lookupA_setA_ne _ _ _ _ (Ne.symm hk)⟩
    · exact Except.noConfusion h
  · cases h
    exact ⟨lookupA_setA_ne _ _ _ _ (Ne.symm hk), rfl⟩

theorem fold_graphMerge_preserves (k : String) (es : List (String × PyVal))
    (hes : ∀ kv ∈ es, kv.1 ≠ k) :
    ∀ acc res, List.foldlM graphMergeStep acc es = Except.ok res →
      lookupA res.1 k = lookupA acc.1 k ∧ lookupA res.2 k = lookupA acc.2 k := by
  induction es with
  | nil =>
      intro acc res h
      cases h
      exact ⟨rfl, rfl⟩
  | cons hd tl ih =>
      intro acc res h
      rw [List.foldlM_cons] at h
      cases hstep : graphMergeStep acc hd with
      | error e => rw [hstep] at h; exact Except.noConfusion h
      | ok accm =>
          rw [hstep] at h
          obtain ⟨h1, h2⟩ := ih (fun kv hm => hes kv (by simp [hm])) accm res h
          obtain ⟨h3, h4⟩ := graphMergeStep_preserves k hd (hes hd (by simp))
            acc accm hstep
          exact ⟨h1.trans h3, h2.trans h4⟩

theorem bind_ok_inv {α β : Type} (F : Except String α) (g : α → Except String β)
    (b : β) (h : (F >>= g) = Except.ok b) :
    ∃ a, F = Except.ok a ∧ g a = Except.ok b := by
  cases F with
  | error e => exact Except.noConfusion h
  | ok a => exact ⟨a, rfl, h⟩

/-- In every successful outcome of `init_graph` the returned options dict
is the fold result's options component, and the trace agrees with the
fold result's trace away from the per-trace style key. -/
theorem init_graph_split (data options : PyDict) (index : ℕ)
    (styleKey : Option String) (perTrace : Bool) (tr1 opts1 : PyDict)
    (h : ElementPlot.init_graph data options index styleKey perTrace
      = Except.ok (tr1, opts1)) :
    ∃ res, List.foldlM graphMergeStep (options, options) data = Except.ok res ∧
      opts1 = res.2 ∧
      (∀ q, ¬ (perTrace = true ∧ styleKey = some q) →
        lookupA tr1 q = lookupA res.1 q) := by
  simp only [ElementPlot.init_graph] at h
  obtain ⟨res, hfold, hrest⟩ := bind_ok_inv _ _ _ h
  refine ⟨res, hfold, ?_⟩
  cases hsty : styleKey with
  | none =>
      rw [hsty] at hrest
      have h2 : (Except.ok (res.1, res.2) : Except String (PyDict × PyDict))
          = Except.ok (tr1, opts1) := hrest
      have h3 : res.1 = tr1 := congrArg Prod.fst (Except.ok.inj h2)
      have h4 : res.2 = opts1 := congrArg Prod.snd (Except.ok.inj h2)
      exact ⟨h4.symm, fun q _ => by rw [← h3]⟩
  | some sk =>
      rw [hsty] at hrest
      cases hpt : perTrace with
      | false =>
          rw [hpt] at hrest
          have h2 : (Except.ok (res.1, res.2) : Except String (PyDict × PyDict))
              = Except.ok (tr1, opts1) := hrest
          have h3 : res.1 = tr1 := congrArg Prod.fst (Except.ok.inj h2)
          have h4 : res.2 = opts1 := congrArg Prod.snd (Except.ok.inj h2)
          exact ⟨h4.symm, fun q _ => by rw [← h3]⟩
      | true =>
          rw [hpt] at hrest
          dsimp only at hrest
          cases hom : lookupA res.2 sk with
          | none =>
              rw [hom] at hrest
              exact Except.noConfusion hrest
          | some v =>
              rw [hom] at hrest
              cases v
              case pdict om =>
                cases htm : lookupA res.1 sk with
                | none =>
                    rw [htm] at hrest
                    exact Except.noConfusion hrest
                | some v2 =>
                    rw [htm] at hrest
                    cases v2
                    case pdict tm =>
                      obtain ⟨tm2, hF, hg⟩ := bind_ok_inv _ _ _ hrest
                      have h2 := Except.ok.inj hg
                      have h3 : setA res.1 sk (PyVal.pdict tm2) = tr1 :=
                        congrArg Prod.fst h2
                      have h4 : res.2 = opts1 := congrArg Prod.snd h2
                      refine ⟨h4.symm, ?_⟩
                      intro q hq
                      have hqs : q ≠ sk := fun hqq => hq ⟨rfl, by rw [hqq]⟩
                      rw [← h3]
                      exact (lookupA_setA_ne _ _ _ _ hqs)
                    all_goals exact Except.noConfusion hrest
              all_goals exact Except.noConfusion hrest

/-- C10: `init_graph` copies the options record only shallowly — when a
data field shares its key with an options field holding a nested dict
(and the per-trace style-key special case does not apply to that key),
the field-by-field merge writes the data's fields into the shared nested
dict, so the returned options record carries the merged dict and a later
`init_graph` call over that record observes the previously merged
fields. -/
theorem init_graph_shared_nested_update (pre post options : PyDict) (index : ℕ)
    (styleKey : Option String) (perTrace : Bool) (k : String)
    (m mv : List (String × PyVal))
    (hopts : lookupA options k = some (PyVal.pdict m))
    (hpre : ∀ kv ∈ pre, kv.1 ≠ k) (hpost : ∀ kv ∈ post, kv.1 ≠ k)
    (hsp : ¬ (perTrace = true ∧ styleKey = some k))
    (tr1 opts1 : PyDict)
    (h1 : ElementPlot.init_graph (pre ++ (k, PyVal.pdict mv) :: post) options
      index styleKey perTrace = Except.ok (tr1, opts1)) :
    lookupA opts1 k = some (PyVal.pdict (updateA m mv)) ∧
    (∀ data2 i2 tr2 opts2, (∀ kv ∈ data2, kv.1 ≠ k) →
      ElementPlot.init_graph data2 opts1 i2 styleKey perTrace
        = Except.ok (tr2, opts2) →
      lookupA tr2 k = some (PyVal.pdict (updateA m mv))) := by
  obtain ⟨res, hfold, hop, htr⟩ := init_graph_split _ _ _ _ _ _ _ h1
  rw [List.foldlM_append] at hfold
  have hmain : lookupA res.2 k = some (PyVal.pdict (updateA m mv)) := by
    cases hpre2 : List.foldlM graphMergeStep (options, options) pre with
    | error e => rw [hpre2] at hfold; exact Except.noConfusion hfold
    | ok resp =>
        rw [hpre2, exc_bind_ok] at hfold
        obtain ⟨hp1, hp2⟩ := fold_graphMerge_preserves k pre hpre _ _ hpre2
        rw [List.foldlM_cons] at hfold
        have hstep : graphMergeStep resp (k, PyVal.pdict mv)
            = Except.ok (setA resp.1 k (PyVal.pdict (updateA m mv)),
                setA resp.2 k (PyVal.pdict (updateA m mv))) := by
          simp only [graphMergeStep]
          rw [show lookupA resp.1 k = some (PyVal.pdict m) from hp1.trans hopts]
        rw [hstep, exc_bind_ok] at hfold
        obtain ⟨hq1, hq2⟩ := fold_graphMerge_preserves k post hpost _ _ hfold
        rw [hq2]
        exact lookupA_setA_self _ _ _
  refine ⟨hop ▸ hmain, ?_⟩
  intro data2 i2 tr2 opts2 hdata2 h2
  obtain ⟨res2, hfold2, hop2, htr2⟩ := init_graph_split _ _ _ _ _ _ _ h2
  obtain ⟨hs1, hs2⟩ := fold_graphMerge_preserves k data2 hdata2 _ _ hfold2
  rw [htr2 k hsp, hs1, hop, hmain]

/-- Witness for C10 at a concrete input: merging marker sub-fields in a
first `init_graph` call is visible through the returned options record in
a second call's trace. -/
theorem init_graph_shared_nested_update_witness :
    ElementPlot.init_graph
        [("marker", PyVal.pdict [("symbol", PyVal.pstr "circle")]),
         ("y", PyVal.pnum 7)]
        [("marker", PyVal.pdict [("size", PyVal.pnum 3)]),
         ("name", PyVal.pstr "lbl")]
        0 (some "marker") false
      = Except.ok
        ([("marker", PyVal.pdict [("size", PyVal.pnum 3), ("symbol", PyVal.pstr "circle")]), ("name", PyVal.pstr "lbl"), ("y", PyVal.pnum 7)],
         [("marker", PyVal.pdict [("size", PyVal.pnum 3), ("symbol", PyVal.pstr "circle")]), ("name", PyVal.pstr "lbl")]) ∧
    lookupA
        [("marker", PyVal.pdict [("size", PyVal.pnum 3), ("symbol", PyVal.pstr "circle")]), ("name", PyVal.pstr "lbl")]
        "marker"
      = some (PyVal.pdict
          (updateA [("size", PyVal.pnum 3)] [("symbol", PyVal.pstr "circle")])) ∧
    (∀ tr2 opts2,
      ElementPlot.init_graph [("y", PyVal.pnum 8)]
        [("marker", PyVal.pdict [("size", PyVal.pnum 3), ("symbol", PyVal.pstr "circle")]), ("name", PyVal.pstr "lbl")]
        1 (some "marker") false = Except.ok (tr2, opts2) →
      lookupA tr2 "marker" = some (PyVal.pdict
        (updateA [("size", PyVal.pnum 3)] [("symbol", PyVal.pstr "circle")]))) := by
  have H := init_graph_shared_nested_update [] [("y", PyVal.pnum 7)]
    [("marker", PyVal.pdict [("size", PyVal.pnum 3)]),
     ("name", PyVal.pstr "lbl")]
    0 (some "marker") false "marker" [("size", PyVal.pnum 3)]
    [("symbol", PyVal.pstr "circle")] rfl (by decide) (by decide) (by simp)
    [("marker", PyVal.pdict [("size", PyVal.pnum 3), ("symbol", PyVal.pstr "circle")]), ("name", PyVal.pstr "lbl"), ("y", PyVal.pnum 7)]
    [("marker", PyVal.pdict [("size", PyVal.pnum 3), ("symbol", PyVal.pstr "circle")]), ("name", PyVal.pstr "lbl")]
    rfl
  exact ⟨rfl, H.1, fun tr2 opts2 h2 =>
    H.2 [("y", PyVal.pnum 8)] 1 tr2 opts2 (by decide) h2⟩

-- END
